import Mathlib

/-!
Shallow embedding of the `depbump` command (vancluever/depbump, main.go).

The repository ships two revisions of `main.go`: a later revision (argument
flags `-nopush`/`-nopr`/`-version`, remote-collision guard, PR submission)
and an early revision (`-push` flag, no PR support).  Both are modelled.

The program is a linear pipeline of external-process invocations.  Every
external effect (a `go` or `git` subprocess, a filesystem stat, the GitHub
HTTP POST) is modelled as an `Event` appended to a trace, and the outcome
of each external call is an oracle field of a `World` record.  Pure logic
(string manipulation, branch naming, template rendering of the fixed
commit template) is translated directly from the source.
-/

namespace Depbump

/-- One external side effect of the program, in the order the source
invokes them.  Arguments record the data the source passes to the
external tool (the `go get` target, the branch name, the commit
message, the PR payload). -/
inductive Event where
  | goModTidy
  | gitStatus
  | goModEditJson
  | gitRemoteGetUrl
  | goGet (target : String)
  | statVendorModules
  | goModVendor
  | postCommand (cmd : List String)
  | gitRevParseHead
  | gitLsRemote (branch : String)
  | gitResetHard
  | gitCheckoutB (branch : String)
  | gitAddAll
  | gitCommit (message : String)
  | gitPush (branch : String)
  | gitCheckout (branch : String)
  | githubCreatePR (owner repo title body head : String)
  deriving DecidableEq, Repr

/-- Type from "go help mod edit" (main.go `pkgInfoRequire`). -/
structure pkgInfoRequire where
  Path : String
  Version : String
  deriving DecidableEq, Repr

/-- The templating context (main.go `commitTemplateData`, later revision).
The early revision's struct lacks the `Owner` field; it is modelled with
`Owner := ""` (the later revision never assigns `Owner` either). -/
structure commitTemplateData where
  Project : String
  Owner : String
  Version : String
  Target : String
  Path : String
  URL : String
  Vendor : Bool
  deriving DecidableEq, Repr

/-- Parsed run configuration (the local variables of `main` after the
argument loop): `path`, `version`, `push`, `pr`, `postCmdRaw`.  The early
revision ignores `pr` and `postCmdRaw`. -/
structure Config where
  path : String
  version : String
  push : Bool
  pr : Bool
  postCmdRaw : List String
  deriving DecidableEq, Repr

/-- Result of `os.Stat("vendor/modules.txt")` (main.go lines 252-259). -/
inductive VendorStat where
  | present
  | absent
  | statErr
  deriving DecidableEq, Repr

/-- Oracle for every external interaction of one run: subprocess
success/failure, subprocess outputs, the parsed `go.mod` require lists at
the two `pkgVersion` calls, the environment token, and the GitHub
response.  `urlParseHost` models the Go standard library call
`url.Parse(rawURL)`: `some h` means it succeeded with `.Host = h`,
`none` means it returned an error.  `postRender` models the Go
`text/template` rendering of the user-supplied post-command tokens
(`none` = parse/execute error of the template engine). -/
structure World where
  preTidyOk : Bool
  gitStatusOut : Option String
  requireBefore : List pkgInfoRequire
  remoteUrlOut : Option String
  urlParseHost : Option String
  githubToken : String
  goGetOk : Bool
  requireAfter : List pkgInfoRequire
  tidyOk : Bool
  vendorStat : VendorStat
  vendorOk : Bool
  postRender : Option (List String)
  postCmdOk : Bool
  revParseOut : Option String
  lsRemoteOut : Option String
  resetOk : Bool
  checkoutBOk : Bool
  addOk : Bool
  commitOk : Bool
  pushOk : Bool
  checkoutOldOk : Bool
  prNewReqOk : Bool
  prHttpOk : Bool
  prReadOk : Bool
  prIsJson : Bool
  prJsonOk : Bool
  prCreated : Bool
  prHtmlUrl : Option String
  deriving DecidableEq, Repr

/-- Outcome of one pipeline stage: exit the process with a code, or
continue with a value. -/
inductive Step (α : Type) where
  | exit (code : Nat)
  | cont (a : α)
  deriving DecidableEq, Repr

/-- A finished run: the ordered trace of external effects and the
process exit code. -/
structure RunResult where
  trace : List Event
  exitCode : Nat
  deriving DecidableEq, Repr

/-- `pkgVersion` (main.go lines 92-111) after the `go mod edit -json`
output has been decoded: scan the require list for the first exact path
match; `none` models the fatal "package not found" exit. -/
def pkgVersion : List pkgInfoRequire → String → Option String
  | [], _ => none
  | r :: rest, p => if r.Path = p then some r.Version else pkgVersion rest p

/-!
String primitives.  The Go `strings` functions are modelled by structural
recursion over the character list of a `String` (Lean's own `String.splitOn`
and friends are well-founded-recursive and do not reduce in the kernel).
All inputs the program manipulates are ASCII command-line arguments,
versions and URLs, for which Go's byte indexing and Lean's character
indexing agree.
-/

/-- If the first list is a prefix of the second, the remainder after it. -/
def dropPrefixChars : List Char → List Char → Option (List Char)
  | [], l => some l
  | _ :: _, [] => none
  | c :: cs, d :: ds => if c = d then dropPrefixChars cs ds else none

/-- Worker for `splitStr`: splits around each leftmost non-overlapping
occurrence of `sep`; the fuel (initialized to more than the list length)
only makes the recursion structural. -/
def splitCharsAux (sep : List Char) : Nat → List Char → List Char →
    List (List Char)
  | 0, acc, _ => [acc.reverse]
  | Nat.succ fuel, acc, l =>
    match l with
    | [] => [acc.reverse]
    | c :: rest =>
      match dropPrefixChars sep l with
      | some rest2 => acc.reverse :: splitCharsAux sep fuel [] rest2
      | none => splitCharsAux sep fuel (c :: acc) rest

/-- Go `strings.Split` (for the nonempty separators the program uses):
split around each non-overlapping instance of `sep`. -/
def splitStr (s sep : String) : List String :=
  if sep.data.isEmpty then [s]
  else (splitCharsAux sep.data (s.data.length + 1) [] s.data).map fun l => ⟨l⟩

/-- Go `strings.SplitN(s, sep, 2)`: split around the first instance of
`sep` only. -/
def splitN2 (s sep : String) : List String :=
  match splitStr s sep with
  | [] => [s]
  | [x] => [x]
  | x :: rest => [x, String.intercalate sep rest]

/-- Go `strings.HasPrefix`. -/
def hasPrefixStr (s pre : String) : Bool :=
  (dropPrefixChars pre.data s.data).isSome

/-- Go `strings.TrimSuffix`. -/
def trimSuffix (s suf : String) : String :=
  if (dropPrefixChars suf.data.reverse s.data.reverse).isSome then
    ⟨(s.data.reverse.drop suf.data.length).reverse⟩
  else s

/-- Go `strings.TrimSpace` (over the ASCII whitespace the tool
encounters). -/
def trimSpaceStr (s : String) : String :=
  ⟨((s.data.dropWhile Char.isWhitespace).reverse.dropWhile
      Char.isWhitespace).reverse⟩

/-- Go byte-slicing `s[n:]` (ASCII). -/
def dropStr (s : String) (n : Nat) : String :=
  ⟨s.data.drop n⟩

/-- The regular expression `^v\d+\.\d+\.\d+$` (main.go line 277):
a leading `v`, then exactly three nonempty all-digit dot-separated
components. -/
def vreMatch (s : String) : Bool :=
  hasPrefixStr s "v" &&
    (let parts := splitStr (dropStr s 1) "."
     parts.length == 3 &&
       parts.all fun p => !p.data.isEmpty && p.data.all Char.isDigit)

/-- The `tree` URL segment computed inside the `github.com` branch
(main.go lines 284-293): the raw tag for a strict semver version,
otherwise the trailing hyphen-delimited segment of the pseudo-version. -/
def urlTree (newVersion : String) : String :=
  if vreMatch newVersion then newVersion
  else (splitStr newVersion "-").getLastD ""

/-- Building the commit template data, later revision
(main.go lines 267-296): project is the last `/`-segment of the path;
`Version` is set (with the leading byte stripped) only for strict semver;
`URL` is set only when the first `/`-segment of the path is
`github.com`. -/
def buildData (path target newVersion : String) (skipVendor : Bool) :
    commitTemplateData :=
  let pathSplit := splitStr path "/"
  let project := pathSplit.getLastD ""
  { Project := project
    Owner := ""
    Version := if vreMatch newVersion then dropStr newVersion 1 else ""
    Target := target
    Path := path
    URL :=
      if pathSplit.headD "" = "github.com" then
        "https://" ++ path ++ "/tree/" ++ urlTree newVersion
      else ""
    Vendor := !skipVendor }

/-- Building the commit data, early revision (main.go lines 662-684):
identical except `Version` is always the raw `newVersion` string (and
the struct has no `Owner` field, modelled as `""`). -/
def buildDataEarly (path target newVersion : String) (skipVendor : Bool) :
    commitTemplateData :=
  let pathSplit := splitStr path "/"
  { Project := pathSplit.getLastD ""
    Owner := ""
    Version := newVersion
    Target := target
    Path := path
    URL :=
      if pathSplit.headD "" = "github.com" then
        "https://" ++ path ++ "/tree/" ++ urlTree newVersion
      else ""
    Vendor := !skipVendor }

/-- Go `html/template` escaping of one character in a plain-text
context (the `htmlReplacementTable` of html/template): NUL becomes the
replacement character and the six HTML-special characters (including
`+`, escaped to block UTF-7 injection) become entities. -/
def htmlEscapeChar (c : Char) : String :=
  if c = Char.ofNat 0 then "�"
  else if c = '"' then "&#34;"
  else if c = '&' then "&amp;"
  else if c = '\'' then "&#39;"
  else if c = '+' then "&#43;"
  else if c = '<' then "&lt;"
  else if c = '>' then "&gt;"
  else String.singleton c

/-- Go `html/template` escaping of an interpolated field in a plain-text
context. -/
def htmlEscape (s : String) : String :=
  String.join (s.data.map htmlEscapeChar)

/-- Rendering the fixed commit template of the later revision
(main.go lines 29-49) against a context.  The template is a constant,
so its rendering is translated directly: every `{{.Field}}` becomes the
HTML-escaped field, `{{if .Vendor}}` and `{{if .URL }}` become
conditionals on `Vendor = true` / `URL` nonempty. -/
def renderCommitMessage (d : commitTemplateData) : String :=
  "modules: upgrade " ++ htmlEscape d.Project ++ " to " ++
    htmlEscape d.Version ++
  "\n\nThis updates:\n  " ++ htmlEscape d.Path ++
  "\n\nTo version " ++ htmlEscape d.Version ++
  ".\n\nExecuted via:\n\n  go get " ++ htmlEscape d.Target ++
  "\n  go mod tidy\n" ++
  (if d.Vendor then "  go mod vendor" else "") ++
  "\n\nFor details on changes, see the project's release page.\n" ++
  (if d.URL = "" then "" else "  " ++ htmlEscape d.URL) ++
  "\n\nThis commit message was auto-generated."

/-- Rendering the fixed commit template of the early revision
(main.go lines 470-490): identical except "This updates" has no
colon. -/
def renderCommitMessageEarly (d : commitTemplateData) : String :=
  "modules: upgrade " ++ htmlEscape d.Project ++ " to " ++
    htmlEscape d.Version ++
  "\n\nThis updates\n  " ++ htmlEscape d.Path ++
  "\n\nTo version " ++ htmlEscape d.Version ++
  ".\n\nExecuted via:\n\n  go get " ++ htmlEscape d.Target ++
  "\n  go mod tidy\n" ++
  (if d.Vendor then "  go mod vendor" else "") ++
  "\n\nFor details on changes, see the project's release page.\n" ++
  (if d.URL = "" then "" else "  " ++ htmlEscape d.URL) ++
  "\n\nThis commit message was auto-generated."

/-- `strings.SplitN(msg, "\n\n", 2)` into title and body
(main.go line 366). -/
def splitTitleBody (s : String) : String × String :=
  match splitStr s "\n\n" with
  | [] => ("", "")
  | [t] => (t, "")
  | t :: rest => (t, String.intercalate "\n\n" rest)

/-- The commit title: the first `"\n\n"`-delimited component of the
rendered later-revision commit message. -/
def commitTitle (d : commitTemplateData) : String :=
  (splitTitleBody (renderCommitMessage d)).1

/-- The commit title of the early revision's rendered message. -/
def commitTitleEarly (d : commitTemplateData) : String :=
  (splitTitleBody (renderCommitMessageEarly d)).1

/-- The `go get` target (main.go lines 230-233): `path` or
`path@version`. -/
def targetOf (cfg : Config) : String :=
  if cfg.version ≠ "" then cfg.path ++ "@" ++ cfg.version else cfg.path

/-- The deterministic branch name (main.go lines 269-270 and 332):
`update-` ++ last `/`-segment of the dependency path ++ `-` ++ the
resolved new version. -/
def branchName (path newVersion : String) : String :=
  "update-" ++ (splitStr path "/").getLastD "" ++ "-" ++ newVersion

/-- Stage 1 (main.go lines 163-183): pre-tidy, clean-tree check, first
`pkgVersion` read, and the already-at-requested-version check (fatal).
Continues with the old version. -/
def preflight (cfg : Config) (w : World) : List Event × Step String :=
  if !w.preTidyOk then ([.goModTidy], .exit 1)
  else match w.gitStatusOut with
  | none => ([.goModTidy, .gitStatus], .exit 1)
  | some st =>
    if st ≠ "" then ([.goModTidy, .gitStatus], .exit 1)
    else match pkgVersion w.requireBefore cfg.path with
    | none => ([.goModTidy, .gitStatus, .goModEditJson], .exit 1)
    | some oldV =>
      if oldV = cfg.version then
        ([.goModTidy, .gitStatus, .goModEditJson], .exit 1)
      else ([.goModTidy, .gitStatus, .goModEditJson], .cont oldV)

/-- Stage 2 (main.go lines 185-227): the origin-remote check.  Skipped
(with `pr := false`) when not pushing.  On a URL-parse error the SSH
fallback splits `user@host:uri`; a missing `@` is fatal, and a missing
`:` makes the source index out of range (a Go panic, exit code 2).
When the host is `github.com` and a token is present, the owner/repo
URI must split into exactly two `/`-segments (else fatal); note the
source assigns `uri = path` — the dependency path — in the
successful-URL-parse branch (line 211). -/
def parseHostUri (cfg : Config) (w : World) (rawURL : String) :
    Step (String × String) :=
  match w.urlParseHost with
  | some h => .cont (h, cfg.path)
  | none =>
    let sshParts := splitN2 rawURL ":"
    let userHost := splitStr (sshParts.headD "") "@"
    if userHost.length ≠ 2 then .exit 1
    else match sshParts with
      | _ :: uri :: _ => .cont (userHost.getD 1 "", uri)
      | _ => .exit 2

/-- Stage 2 continued: the whole origin-remote check; see
`parseHostUri` for the host/URI determination. -/
def remoteStage (cfg : Config) (w : World) :
    List Event × Step (Bool × String × String) :=
  if !cfg.push then ([], .cont (false, "", ""))
  else match w.remoteUrlOut with
  | none => ([.gitRemoteGetUrl], .exit 1)
  | some out =>
    match parseHostUri cfg w (trimSpaceStr out) with
    | .exit c => ([.gitRemoteGetUrl], .exit c)
    | .cont (host, uri) =>
      if host ≠ "github.com" ∨ w.githubToken = "" then
        ([.gitRemoteGetUrl], .cont (false, "", ""))
      else
        let ownerRepo := splitStr uri "/"
        if ownerRepo.length ≠ 2 then ([.gitRemoteGetUrl], .exit 1)
        else
          ([.gitRemoteGetUrl],
           .cont (cfg.pr, ownerRepo.headD "",
                  trimSuffix (ownerRepo.getD 1 "") ".git"))

/-- Stage 3 (main.go lines 229-243): `go get` the target, re-read the
version, and exit 0 with an informational message when it did not
change.  Continues with `(target, newVersion)`. -/
def upgradeStage (cfg : Config) (w : World) (oldV : String) :
    List Event × Step (String × String) :=
  let target := targetOf cfg
  if !w.goGetOk then ([.goGet target], .exit 1)
  else match pkgVersion w.requireAfter cfg.path with
  | none => ([.goGet target, .goModEditJson], .exit 1)
  | some newV =>
    if oldV = newV then ([.goGet target, .goModEditJson], .exit 0)
    else ([.goGet target, .goModEditJson], .cont (target, newV))

/-- Stage 4 (main.go lines 245-265): tidy, stat `vendor/modules.txt`,
vendor when present.  Continues with `skipVendor`. -/
def tidyVendorStage (w : World) : List Event × Step Bool :=
  if !w.tidyOk then ([.goModTidy], .exit 1)
  else match w.vendorStat with
  | .statErr => ([.goModTidy, .statVendorModules], .exit 1)
  | .absent => ([.goModTidy, .statVendorModules], .cont true)
  | .present =>
    if !w.vendorOk then
      ([.goModTidy, .statVendorModules, .goModVendor], .exit 1)
    else ([.goModTidy, .statVendorModules, .goModVendor], .cont false)

/-- Stage 5 (main.go lines 298-321): when a post-update command was
supplied, render it through the templating context (template failure is
fatal before any execution) and execute it (failure fatal). -/
def postStage (cfg : Config) (w : World) : List Event × Step Unit :=
  if cfg.postCmdRaw.isEmpty then ([], .cont ())
  else match w.postRender with
  | none => ([], .exit 1)
  | some rendered =>
    if !w.postCmdOk then ([.postCommand rendered], .exit 1)
    else ([.postCommand rendered], .cont ())

/-- Stage 6 (main.go lines 323-357): read the current branch, query the
remote for the deterministic branch name; on a collision hard-reset the
tree and exit 0 (fatal if the reset fails); otherwise create the branch
and stage all changes.  Continues with the old branch name. -/
def branchStage (w : World) (branch : String) : List Event × Step String :=
  match w.revParseOut with
  | none => ([.gitRevParseHead], .exit 1)
  | some rbOut =>
    let oldBranch := trimSpaceStr rbOut
    match w.lsRemoteOut with
    | none => ([.gitRevParseHead, .gitLsRemote branch], .exit 1)
    | some ls =>
      if ls ≠ "" then
        if !w.resetOk then
          ([.gitRevParseHead, .gitLsRemote branch, .gitResetHard], .exit 1)
        else
          ([.gitRevParseHead, .gitLsRemote branch, .gitResetHard], .exit 0)
      else
        if !w.checkoutBOk then
          ([.gitRevParseHead, .gitLsRemote branch, .gitCheckoutB branch],
           .exit 1)
        else if !w.addOk then
          ([.gitRevParseHead, .gitLsRemote branch, .gitCheckoutB branch,
            .gitAddAll], .exit 1)
        else
          ([.gitRevParseHead, .gitLsRemote branch, .gitCheckoutB branch,
            .gitAddAll], .cont oldBranch)

/-- Stage 7 (main.go lines 360-446): render the message, commit, push
when enabled, restore the original branch, and submit the PR when `pr`
is set (a created status exits 0, anything else is fatal). -/
def commitTail (cfg : Config) (w : World) (msg : String)
    (branch oldBranch owner repo : String) (pr : Bool) :
    List Event × Nat :=
  let tb := splitTitleBody msg
  if !w.commitOk then ([.gitCommit msg], 1)
  else if cfg.push ∧ !w.pushOk then ([.gitCommit msg, .gitPush branch], 1)
  else
    let t1 := [.gitCommit msg] ++
      (if cfg.push then [Event.gitPush branch] else [])
    if !w.checkoutOldOk then (t1 ++ [.gitCheckout oldBranch], 1)
    else
      let t2 := t1 ++ [Event.gitCheckout oldBranch]
      if pr then
        if !w.prNewReqOk then (t2, 1)
        else
          let ev := Event.githubCreatePR owner repo tb.1 tb.2 branch
          if !w.prHttpOk then (t2 ++ [ev], 1)
          else if !w.prReadOk then (t2 ++ [ev], 1)
          else if w.prIsJson ∧ !w.prJsonOk then (t2 ++ [ev], 1)
          else if w.prCreated then (t2 ++ [ev], 0)
          else (t2 ++ [ev], 1)
      else (t2, 0)

/-- The later revision's `main` after argument parsing
(main.go lines 163-446), assembled from the stages in source order. -/
def run (cfg : Config) (w : World) : RunResult :=
  match preflight cfg w with
  | (t1, .exit c) => ⟨t1, c⟩
  | (t1, .cont oldV) =>
    match remoteStage cfg w with
    | (t2, .exit c) => ⟨t1 ++ t2, c⟩
    | (t2, .cont (pr, owner, repo)) =>
      match upgradeStage cfg w oldV with
      | (t3, .exit c) => ⟨t1 ++ t2 ++ t3, c⟩
      | (t3, .cont (target, newV)) =>
        match tidyVendorStage w with
        | (t4, .exit c) => ⟨t1 ++ t2 ++ t3 ++ t4, c⟩
        | (t4, .cont skipVendor) =>
          let d := buildData cfg.path target newV skipVendor
          match postStage cfg w with
          | (t5, .exit c) => ⟨t1 ++ t2 ++ t3 ++ t4 ++ t5, c⟩
          | (t5, .cont _) =>
            let branch := branchName cfg.path newV
            match branchStage w branch with
            | (t6, .exit c) => ⟨t1 ++ t2 ++ t3 ++ t4 ++ t5 ++ t6, c⟩
            | (t6, .cont oldBranch) =>
              let (t7, code) :=
                commitTail cfg w (renderCommitMessage d) branch oldBranch
                  owner repo pr
              ⟨t1 ++ t2 ++ t3 ++ t4 ++ t5 ++ t6 ++ t7, code⟩

/-- The early revision's `main` after argument parsing
(main.go lines 589-711): no pre-tidy, no remote check, both no-op
version checks fatal, branch creation before the commit data is built,
no collision guard and no PR. -/
def runEarly (cfg : Config) (w : World) : RunResult :=
  match w.gitStatusOut with
  | none => ⟨[.gitStatus], 1⟩
  | some st =>
    if st ≠ "" then ⟨[.gitStatus], 1⟩
    else match pkgVersion w.requireBefore cfg.path with
    | none => ⟨[.gitStatus, .goModEditJson], 1⟩
    | some oldV =>
      if oldV = cfg.version then ⟨[.gitStatus, .goModEditJson], 1⟩
      else
        let target := targetOf cfg
        if !w.goGetOk then ⟨[.gitStatus, .goModEditJson, .goGet target], 1⟩
        else match pkgVersion w.requireAfter cfg.path with
        | none =>
          ⟨[.gitStatus, .goModEditJson, .goGet target, .goModEditJson], 1⟩
        | some newV =>
          if oldV = newV then
            ⟨[.gitStatus, .goModEditJson, .goGet target, .goModEditJson], 1⟩
          else
            let t0 : List Event :=
              [.gitStatus, .goModEditJson, .goGet target, .goModEditJson]
            match tidyVendorStage w with
            | (t4, .exit c) => ⟨t0 ++ t4, c⟩
            | (t4, .cont skipVendor) =>
              match w.revParseOut with
              | none => ⟨t0 ++ t4 ++ [.gitRevParseHead], 1⟩
              | some rbOut =>
                let oldBranch := trimSpaceStr rbOut
                let branch := branchName cfg.path newV
                if !w.checkoutBOk then
                  ⟨t0 ++ t4 ++ [.gitRevParseHead, .gitCheckoutB branch], 1⟩
                else if !w.addOk then
                  ⟨t0 ++ t4 ++ [.gitRevParseHead, .gitCheckoutB branch,
                    .gitAddAll], 1⟩
                else
                  let d := buildDataEarly cfg.path target newV skipVendor
                  let msg := renderCommitMessageEarly d
                  let t6 : List Event :=
                    t0 ++ t4 ++ [.gitRevParseHead, .gitCheckoutB branch,
                      .gitAddAll]
                  if !w.commitOk then ⟨t6 ++ [.gitCommit msg], 1⟩
                  else if cfg.push ∧ !w.pushOk then
                    ⟨t6 ++ [.gitCommit msg, .gitPush branch], 1⟩
                  else
                    let t7 := t6 ++ [Event.gitCommit msg] ++
                      (if cfg.push then [Event.gitPush branch] else [])
                    if !w.checkoutOldOk then
                      ⟨t7 ++ [.gitCheckout oldBranch], 1⟩
                    else ⟨t7 ++ [.gitCheckout oldBranch], 0⟩

/-- The later revision's argument loop (main.go lines 126-157), with the
loop state carried explicitly.  Flags are only recognized while `path`
is still empty; `-version` blindly consumes the next token (fatal when
absent); an unrecognized `-`-token in flag position is fatal; once
`path` is set every further token is appended to the post-update
command. -/
def parseArgsLoop : List String → String → String → List String →
    Bool → Bool → Except String Config
  | [], path, version, postCmd, push, pr =>
    if path = "" then .error "fatal: path is empty"
    else .ok ⟨path, version, push, pr, postCmd⟩
  | arg :: rest, path, version, postCmd, push, pr =>
    if path = "" ∧ hasPrefixStr arg "-" then
      if arg = "-nopush" then parseArgsLoop rest path version postCmd false pr
      else if arg = "-nopr" then
        parseArgsLoop rest path version postCmd push false
      else if arg = "-version" then
        match rest with
        | [] => .error "fatal: not enough arguments"
        | v :: rest2 => parseArgsLoop rest2 path v postCmd push pr
      else .error "fatal: invalid argument"
    else if path = "" then parseArgsLoop rest arg version postCmd push pr
    else parseArgsLoop rest path version (postCmd ++ [arg]) push pr

/-- The later revision's argument parser (main.go lines 115-161):
`os.Args[1:]` is the input; an empty argument list or an empty path
after the loop is fatal with the usage message. -/
def parseArgs (args : List String) : Except String Config :=
  if args.isEmpty then .error "usage"
  else parseArgsLoop args "" "" [] true true

/-- The whole later-revision process: parse, then run; a parse failure
exits 1 before any external effect. -/
def mainRun (args : List String) (w : World) : RunResult :=
  match parseArgs args with
  | .error _ => ⟨[], 1⟩
  | .ok cfg => run cfg w

/-- A valid flag-position token sequence for the later revision's
parser: known flags, with `-version` consuming one following value
token. -/
def flagSeqOk : List String → Bool
  | [] => true
  | a :: rest =>
    if a = "-nopush" ∨ a = "-nopr" then flagSeqOk rest
    else if a = "-version" then
      match rest with
      | [] => false
      | _ :: rest2 => flagSeqOk rest2
    else false

/-- The host the remote check derives from the `origin` URL
(main.go lines 193-212): the parsed URL's host on success, otherwise
the part after `@` of the text before the first `:` (when that split
has exactly a user and a host). -/
def remoteHost (cfg : Config) (w : World) : Option String :=
  match w.remoteUrlOut with
  | none => none
  | some out =>
    match parseHostUri cfg w (trimSpaceStr out) with
    | .cont (h, _) => some h
    | .exit _ => none


/-- The four PR-gating conditions of claim C4: pushing enabled, PR not
disabled, recognized host, token present. -/
def prConditions (cfg : Config) (w : World) : Prop :=
  cfg.push = true ∧ cfg.pr = true ∧
    remoteHost cfg w = some "github.com" ∧ w.githubToken ≠ ""

/-- Every fallible step of one run succeeds, no remote-branch collision
occurs, and the remote check itself completes without exiting. -/
def PipelineOk (cfg : Config) (w : World) : Prop :=
  w.preTidyOk = true ∧ w.gitStatusOut = some "" ∧
  (∃ v nv, pkgVersion w.requireBefore cfg.path = some v ∧
    pkgVersion w.requireAfter cfg.path = some nv ∧
    v ≠ cfg.version ∧ v ≠ nv) ∧
  w.goGetOk = true ∧ w.tidyOk = true ∧ w.vendorStat ≠ VendorStat.statErr ∧
  w.vendorOk = true ∧
  (cfg.postCmdRaw = [] ∨ (∃ r, w.postRender = some r ∧ w.postCmdOk = true)) ∧
  (∃ rb, w.revParseOut = some rb) ∧ w.lsRemoteOut = some "" ∧
  w.checkoutBOk = true ∧ w.addOk = true ∧ w.commitOk = true ∧
  w.pushOk = true ∧ w.checkoutOldOk = true ∧ w.prNewReqOk = true ∧
  w.prHttpOk = true ∧ w.prReadOk = true ∧
  (w.prIsJson = true → w.prJsonOk = true) ∧ w.prCreated = true ∧
  (∃ res, (remoteStage cfg w).2 = Step.cont res)

/-- A concrete run configuration: bump `github.com/foo/bar` to `v1.3.0`,
push and PR enabled, no post-update command. -/
def cfgOk : Config := ⟨"github.com/foo/bar", "v1.3.0", true, true, []⟩

/-- A concrete world where every external step succeeds: clean tree, the
dependency pinned at `v1.2.0` before and `v1.3.0` after the fetch, an SSH
`origin` remote (whose URL `url.Parse` rejects, since its first path
segment contains a colon and `git@github.com` is not a valid scheme), a
token in the environment, no vendor directory, no remote-branch
collision, and a created PR. -/
def wOk : World where
  preTidyOk := true
  gitStatusOut := some ""
  requireBefore := [⟨"github.com/foo/bar", "v1.2.0"⟩]
  remoteUrlOut := some "git@github.com:alice/widget.git"
  urlParseHost := none
  githubToken := "tok"
  goGetOk := true
  requireAfter := [⟨"github.com/foo/bar", "v1.3.0"⟩]
  tidyOk := true
  vendorStat := .absent
  vendorOk := true
  postRender := none
  postCmdOk := true
  revParseOut := some "master"
  lsRemoteOut := some ""
  resetOk := true
  checkoutBOk := true
  addOk := true
  commitOk := true
  pushOk := true
  checkoutOldOk := true
  prNewReqOk := true
  prHttpOk := true
  prReadOk := true
  prIsJson := true
  prJsonOk := true
  prCreated := true
  prHtmlUrl := some "https://github.com/alice/widget/pull/1"

/-- `cfgOk` with the requested version equal to the already-pinned one. -/
def cfgPin : Config := ⟨"github.com/foo/bar", "v1.2.0", true, true, []⟩

/-- `cfgOk` with a post-update command supplied. -/
def cfgPost : Config :=
  ⟨"github.com/foo/bar", "v1.3.0", true, true, ["./after.sh"]⟩

/-- `wOk` with the post-update command rendering to itself. -/
def wPost : World := { wOk with postRender := some ["./after.sh"] }

/-- `wOk` with a remote-branch collision: `git ls-remote` reports an
existing remote branch. -/
def wColl : World :=
  { wOk with lsRemoteOut := some "refs/heads/update-bar-v1.3.0" }

/-- `wOk` with an `origin` URL that `url.Parse` rejects (colon in the
first path segment, `bad_host` is not a valid scheme because of the
underscore) and that has no `@`, so the SSH fallback is fatal. -/
def wBad : World :=
  { wOk with remoteUrlOut := some "bad_host:path", urlParseHost := none }

/-- `wOk` with an HTTPS `origin` remote, which `url.Parse` accepts with
host `github.com`. -/
def wHttps : World :=
  { wOk with remoteUrlOut := some "https://github.com/alice/widget.git",
             urlParseHost := some "github.com" }

/-- `wOk` where the version read after `go get` still equals the version
read before it. -/
def wSame : World :=
  { wOk with requireAfter := [⟨"github.com/foo/bar", "v1.2.0"⟩] }

/-! ### Stage trace characterizations -/

lemma preflight_events (cfg : Config) (w : World) :
    ∀ e ∈ (preflight cfg w).1,
      e = Event.goModTidy ∨ e = Event.gitStatus ∨ e = Event.goModEditJson := by
  intro e he
  unfold preflight at he
  repeat' split at he
  all_goals try simp_all [apply_ite Prod.fst]
  all_goals try (repeat' split at he)
  all_goals try simp_all [apply_ite Prod.fst]
  all_goals tauto

lemma remoteStage_events (cfg : Config) (w : World) :
    ∀ e ∈ (remoteStage cfg w).1, e = Event.gitRemoteGetUrl := by
  intro e he
  unfold remoteStage at he
  repeat' split at he
  all_goals try simp_all [apply_ite Prod.fst]
  all_goals try (repeat' split at he)
  all_goals try simp_all [apply_ite Prod.fst]
  all_goals tauto

lemma upgradeStage_events (cfg : Config) (w : World) (oldV : String) :
    ∀ e ∈ (upgradeStage cfg w oldV).1,
      e = Event.goGet (targetOf cfg) ∨ e = Event.goModEditJson := by
  intro e he
  unfold upgradeStage at he
  repeat' split at he
  all_goals try simp_all [apply_ite Prod.fst]
  all_goals try (repeat' split at he)
  all_goals try simp_all [apply_ite Prod.fst]
  all_goals tauto

lemma tidyVendorStage_events (w : World) :
    ∀ e ∈ (tidyVendorStage w).1,
      e = Event.goModTidy ∨ e = Event.statVendorModules ∨
        e = Event.goModVendor := by
  intro e he
  unfold tidyVendorStage at he
  repeat' split at he
  all_goals try simp_all [apply_ite Prod.fst]
  all_goals try (repeat' split at he)
  all_goals try simp_all [apply_ite Prod.fst]
  all_goals tauto

lemma postStage_events (cfg : Config) (w : World) :
    ∀ e ∈ (postStage cfg w).1, ∃ c, e = Event.postCommand c := by
  intro e he
  unfold postStage at he
  repeat' split at he
  all_goals try simp_all [apply_ite Prod.fst]
  all_goals try (repeat' split at he)
  all_goals try simp_all [apply_ite Prod.fst]
  all_goals tauto

lemma branchStage_events (w : World) (br : String) :
    ∀ e ∈ (branchStage w br).1,
      e = Event.gitRevParseHead ∨ e = Event.gitLsRemote br ∨
        e = Event.gitResetHard ∨ e = Event.gitCheckoutB br ∨
        e = Event.gitAddAll := by
  intro e he
  unfold branchStage at he
  repeat' split at he
  all_goals try simp_all [apply_ite Prod.fst]
  all_goals try (repeat' split at he)
  all_goals try simp_all [apply_ite Prod.fst]
  all_goals tauto

set_option maxHeartbeats 1600000 in
lemma preflight_cont (cfg : Config) (w : World) (v : String)
    (h : (preflight cfg w).2 = .cont v) :
    w.preTidyOk = true ∧ w.gitStatusOut = some "" ∧
      pkgVersion w.requireBefore cfg.path = some v ∧ v ≠ cfg.version := by
  unfold preflight at h
  repeat' split at h
  all_goals simp_all

set_option maxHeartbeats 800000 in
lemma remoteStage_cont_pr (cfg : Config) (w : World) (p : Bool) (o r : String)
    (h : (remoteStage cfg w).2 = .cont (p, o, r)) :
    p = true ↔ cfg.push = true ∧ cfg.pr = true ∧
      remoteHost cfg w = some "github.com" ∧ w.githubToken ≠ "" := by
  unfold remoteStage at h
  unfold remoteHost
  repeat' split at h
  all_goals try simp_all
  all_goals try (split at h <;> simp_all)
  all_goals tauto

lemma upgradeStage_cont (cfg : Config) (w : World) (oldV tg nv : String)
    (h : (upgradeStage cfg w oldV).2 = .cont (tg, nv)) :
    tg = targetOf cfg ∧ pkgVersion w.requireAfter cfg.path = some nv ∧
      oldV ≠ nv ∧
      (upgradeStage cfg w oldV).1 =
        [Event.goGet (targetOf cfg), Event.goModEditJson] := by
  unfold upgradeStage at h ⊢
  repeat' split at h
  all_goals simp_all

lemma tidyVendorStage_head (w : World) :
    ∃ l, (tidyVendorStage w).1 = Event.goModTidy :: l := by
  unfold tidyVendorStage
  repeat' split
  all_goals simp

lemma postStage_cont_trace (cfg : Config) (w : World)
    (hne : cfg.postCmdRaw ≠ []) (h : (postStage cfg w).2 = .cont ()) :
    ∃ r, w.postRender = some r ∧
      (postStage cfg w).1 = [Event.postCommand r] := by
  unfold postStage at h ⊢
  cases hpr : w.postRender
  all_goals simp_all [List.isEmpty_iff]
  all_goals split at h
  all_goals simp_all

lemma branchStage_checkoutB (w : World) (br b : String)
    (h : Event.gitCheckoutB b ∈ (branchStage w br).1) :
    b = br ∧ ∃ l, (branchStage w br).1 =
      Event.gitRevParseHead :: Event.gitLsRemote br ::
        Event.gitCheckoutB br :: l := by
  unfold branchStage at h ⊢
  repeat' split at h
  all_goals try simp_all
  all_goals simp_all

lemma branchStage_lsRemote (w : World) (br b : String)
    (h : Event.gitLsRemote b ∈ (branchStage w br).1) : b = br := by
  unfold branchStage at h
  repeat' split at h
  all_goals try simp_all

lemma branchStage_collision (w : World) (br s : String)
    (hls : w.lsRemoteOut = some s) (hne : s ≠ "") :
    (∀ b, Event.gitCheckoutB b ∉ (branchStage w br).1) ∧
      (∀ c, (branchStage w br).2 = .exit c →
        (c = 0 → Event.gitResetHard ∈ (branchStage w br).1)) ∧
      (∀ ob, (branchStage w br).2 ≠ .cont ob) := by
  unfold branchStage
  repeat' split
  all_goals simp_all

lemma commitTail_commit_mem (cfg : Config) (w : World)
    (msg br ob ow rp : String) (pr : Bool) :
    Event.gitCommit msg ∈ (commitTail cfg w msg br ob ow rp pr).1 := by
  unfold commitTail
  repeat' split
  all_goals simp

set_option maxHeartbeats 3200000 in
lemma commitTail_commit_msg (cfg : Config) (w : World)
    (msg br ob ow rp : String) (pr : Bool) (m : String)
    (h : Event.gitCommit m ∈ (commitTail cfg w msg br ob ow rp pr).1) :
    m = msg := by
  unfold commitTail at h
  repeat' split at h
  all_goals simp_all

set_option maxHeartbeats 3200000 in
lemma commitTail_events (cfg : Config) (w : World)
    (msg br ob ow rp : String) (pr : Bool) :
    ∀ e ∈ (commitTail cfg w msg br ob ow rp pr).1,
      (∃ m, e = Event.gitCommit m) ∨ e = Event.gitPush br ∨
        e = Event.gitCheckout ob ∨
        (∃ ti bo, e = Event.githubCreatePR ow rp ti bo br) := by
  intro e he
  unfold commitTail at he
  repeat' split at he
  all_goals try simp_all [apply_ite Prod.fst]
  all_goals try (repeat' split at he)
  all_goals try simp_all [apply_ite Prod.fst]
  all_goals aesop

/-- Exhaustive case analysis of `run`: every run is one of seven shapes,
exiting at one of the six fallible stages or completing `commitTail`,
and its trace is the concatenation of the traces of the stages it
entered. -/
lemma run_cases (cfg : Config) (w : World) :
    (∃ t1 c, preflight cfg w = (t1, .exit c) ∧ run cfg w = ⟨t1, c⟩) ∨
    (∃ t1 oldV t2 c, preflight cfg w = (t1, .cont oldV) ∧
      remoteStage cfg w = (t2, .exit c) ∧ run cfg w = ⟨t1 ++ t2, c⟩) ∨
    (∃ t1 oldV t2 pr owner repo t3 c,
      preflight cfg w = (t1, .cont oldV) ∧
      remoteStage cfg w = (t2, .cont (pr, owner, repo)) ∧
      upgradeStage cfg w oldV = (t3, .exit c) ∧
      run cfg w = ⟨t1 ++ t2 ++ t3, c⟩) ∨
    (∃ t1 oldV t2 pr owner repo t3 tg nv t4 c,
      preflight cfg w = (t1, .cont oldV) ∧
      remoteStage cfg w = (t2, .cont (pr, owner, repo)) ∧
      upgradeStage cfg w oldV = (t3, .cont (tg, nv)) ∧
      tidyVendorStage w = (t4, .exit c) ∧
      run cfg w = ⟨t1 ++ t2 ++ t3 ++ t4, c⟩) ∨
    (∃ t1 oldV t2 pr owner repo t3 tg nv t4 sv t5 c,
      preflight cfg w = (t1, .cont oldV) ∧
      remoteStage cfg w = (t2, .cont (pr, owner, repo)) ∧
      upgradeStage cfg w oldV = (t3, .cont (tg, nv)) ∧
      tidyVendorStage w = (t4, .cont sv) ∧
      postStage cfg w = (t5, .exit c) ∧
      run cfg w = ⟨t1 ++ t2 ++ t3 ++ t4 ++ t5, c⟩) ∨
    (∃ t1 oldV t2 pr owner repo t3 tg nv t4 sv t5 t6 c,
      preflight cfg w = (t1, .cont oldV) ∧
      remoteStage cfg w = (t2, .cont (pr, owner, repo)) ∧
      upgradeStage cfg w oldV = (t3, .cont (tg, nv)) ∧
      tidyVendorStage w = (t4, .cont sv) ∧
      postStage cfg w = (t5, .cont ()) ∧
      branchStage w (branchName cfg.path nv) = (t6, .exit c) ∧
      run cfg w = ⟨t1 ++ t2 ++ t3 ++ t4 ++ t5 ++ t6, c⟩) ∨
    (∃ t1 oldV t2 pr owner repo t3 tg nv t4 sv t5 t6 ob,
      preflight cfg w = (t1, .cont oldV) ∧
      remoteStage cfg w = (t2, .cont (pr, owner, repo)) ∧
      upgradeStage cfg w oldV = (t3, .cont (tg, nv)) ∧
      tidyVendorStage w = (t4, .cont sv) ∧
      postStage cfg w = (t5, .cont ()) ∧
      branchStage w (branchName cfg.path nv) = (t6, .cont ob) ∧
      run cfg w = ⟨t1 ++ t2 ++ t3 ++ t4 ++ t5 ++ t6 ++
        (commitTail cfg w
          (renderCommitMessage (buildData cfg.path tg nv sv))
          (branchName cfg.path nv) ob owner repo pr).1,
        (commitTail cfg w
          (renderCommitMessage (buildData cfg.path tg nv sv))
          (branchName cfg.path nv) ob owner repo pr).2⟩) := by
  rcases hp : preflight cfg w with ⟨t1, s1⟩
  rcases s1 with c | oldV
  · exact Or.inl ⟨t1, c, rfl, by unfold run; rw [hp]⟩
  rcases hr : remoteStage cfg w with ⟨t2, s2⟩
  rcases s2 with c | ⟨pr, owner, repo⟩
  · exact Or.inr (Or.inl ⟨t1, oldV, t2, c, rfl, rfl,
      by unfold run; rw [hp]; dsimp only; rw [hr]⟩)
  rcases hu : upgradeStage cfg w oldV with ⟨t3, s3⟩
  rcases s3 with c | ⟨tg, nv⟩
  · refine Or.inr (Or.inr (Or.inl
      ⟨t1, oldV, t2, pr, owner, repo, t3, c, rfl, rfl, hu, ?_⟩))
    unfold run; rw [hp]; dsimp only; rw [hr]; dsimp only; rw [hu]
  rcases ht : tidyVendorStage w with ⟨t4, s4⟩
  rcases s4 with c | sv
  · refine Or.inr (Or.inr (Or.inr (Or.inl
      ⟨t1, oldV, t2, pr, owner, repo, t3, tg, nv, t4, c,
        rfl, rfl, hu, rfl, ?_⟩)))
    unfold run
    rw [hp]; dsimp only; rw [hr]; dsimp only; rw [hu]; dsimp only; rw [ht]
  rcases hpo : postStage cfg w with ⟨t5, s5⟩
  rcases s5 with c | u
  · refine Or.inr (Or.inr (Or.inr (Or.inr (Or.inl
      ⟨t1, oldV, t2, pr, owner, repo, t3, tg, nv, t4, sv, t5, c,
        rfl, rfl, hu, rfl, rfl, ?_⟩))))
    unfold run
    rw [hp]; dsimp only; rw [hr]; dsimp only; rw [hu]; dsimp only
    rw [ht]; dsimp only; rw [hpo]
  cases u
  rcases hb : branchStage w (branchName cfg.path nv) with ⟨t6, s6⟩
  rcases s6 with c | ob
  · refine Or.inr (Or.inr (Or.inr (Or.inr (Or.inr (Or.inl
      ⟨t1, oldV, t2, pr, owner, repo, t3, tg, nv, t4, sv, t5, t6, c,
        rfl, rfl, hu, rfl, rfl, hb, ?_⟩)))))
    unfold run
    rw [hp]; dsimp only; rw [hr]; dsimp only; rw [hu]; dsimp only
    rw [ht]; dsimp only; rw [hpo]; dsimp only; rw [hb]
  · refine Or.inr (Or.inr (Or.inr (Or.inr (Or.inr (Or.inr
      ⟨t1, oldV, t2, pr, owner, repo, t3, tg, nv, t4, sv, t5, t6, ob,
        rfl, rfl, hu, rfl, rfl, hb, ?_⟩)))))
    unfold run
    rw [hp]; dsimp only; rw [hr]; dsimp only; rw [hu]; dsimp only
    rw [ht]; dsimp only; rw [hpo]; dsimp only; rw [hb]


lemma branchStage_cont_trace (w : World) (br ob : String)
    (h : (branchStage w br).2 = .cont ob) :
    (branchStage w br).1 = [Event.gitRevParseHead, Event.gitLsRemote br,
      Event.gitCheckoutB br, Event.gitAddAll] := by
  unfold branchStage at h ⊢
  repeat' split at h
  all_goals try simp_all
  all_goals try (split at h <;> simp_all)

set_option maxHeartbeats 1600000 in
lemma commitTail_full (cfg : Config) (w : World)
    (msg br ob ow rp : String) (p : Bool)
    (hc : w.commitOk = true) (hpu : w.pushOk = true)
    (hco : w.checkoutOldOk = true) (hnr : w.prNewReqOk = true)
    (hh : w.prHttpOk = true) (hrd : w.prReadOk = true)
    (hj : w.prIsJson = true → w.prJsonOk = true) (hcr : w.prCreated = true) :
    (commitTail cfg w msg br ob ow rp p).2 = 0 ∧
    (p = true → Event.githubCreatePR ow rp (splitTitleBody msg).1
      (splitTitleBody msg).2 br ∈ (commitTail cfg w msg br ob ow rp p).1) ∧
    (p = false → ∀ o r ti bo hd,
      Event.githubCreatePR o r ti bo hd ∉ (commitTail cfg w msg br ob ow rp p).1) := by
  have hj' : w.prIsJson ∧ ¬ (w.prJsonOk = true) → False := by
    rintro ⟨h1, h2⟩
    exact h2 (hj h1)
  unfold commitTail
  cases hpj : w.prIsJson <;> cases hpp : cfg.push <;> cases p <;>
    simp_all [hc, hpu, hco, hnr, hh, hrd, hcr]

lemma data_join (l : List String) :
    (String.join l).data = (l.map String.data).join := by
  have h : ∀ (acc : String) (xs : List String),
      (xs.foldl (· ++ ·) acc).data = acc.data ++ (xs.map String.data).join := by
    intro acc xs
    induction xs generalizing acc with
    | nil => simp
    | cons b xs ihx => simp [List.foldl_cons, ihx, String.data_append]
  simp [String.join, h]

lemma htmlEscape_no_newline (t : String) (h : '\n' ∉ t.data) :
    '\n' ∉ (htmlEscape t).data := by
  intro hmem
  simp only [htmlEscape, data_join, List.mem_join] at hmem
  obtain ⟨piece, hp, hcp⟩ := hmem
  simp only [List.map_map, List.mem_map] at hp
  obtain ⟨c, hc, rfl⟩ := hp
  simp only [Function.comp_apply] at hcp
  apply h
  have hcn : c = '\n' := by
    unfold htmlEscapeChar at hcp
    split_ifs at hcp <;>
      first
        | exact absurd hcp (by decide)
        | (simp [String.singleton] at hcp
           exact hcp.symm)
  rwa [hcn] at hc

lemma splitCharsAux_sep_head (rest : List Char) :
    ∀ (l : List Char) (fuel : Nat) (acc : List Char), '\n' ∉ l →
      l.length + 2 ≤ fuel →
      (splitCharsAux ['\n', '\n'] fuel acc
          (l ++ '\n' :: '\n' :: rest)).headD [] = acc.reverse ++ l := by
  intro l
  induction l with
  | nil =>
    intro fuel acc _ hf
    obtain ⟨k, rfl⟩ : ∃ k, fuel = k + 1 := ⟨fuel - 1, by omega⟩
    simp [splitCharsAux, dropPrefixChars]
  | cons c l ih =>
    intro fuel acc hnl hf
    obtain ⟨k, rfl⟩ : ∃ k, fuel = k + 1 := ⟨fuel - 1, by omega⟩
    have hc : ¬ ('\n' = c) := by
      intro hcon
      exact hnl (by simp [← hcon])
    have hdp : dropPrefixChars ['\n', '\n']
        (c :: (l ++ '\n' :: '\n' :: rest)) = none := by
      simp [dropPrefixChars, hc]
    have hnl' : '\n' ∉ l := fun hm => hnl (List.mem_cons_of_mem _ hm)
    have hlen : l.length + 2 ≤ k := by
      simp at hf
      omega
    simp only [List.cons_append, splitCharsAux, hdp]
    rw [ih k (c :: acc) hnl' hlen]
    simp

lemma commitTitle_of_split (t r : String) (h : '\n' ∉ t.data) :
    (splitTitleBody (t ++ "\n\n" ++ r)).1 = t := by
  unfold splitTitleBody splitStr
  have h22 : ("\n\n" : String).data = ['\n', '\n'] := by decide
  have hdata : (t ++ "\n\n" ++ r).data = t.data ++ '\n' :: '\n' :: r.data := by
    simp [String.data_append, h22]
  have hlen : t.data.length + 2 ≤
      (t.data ++ '\n' :: '\n' :: r.data).length + 1 := by
    simp only [List.length_append, List.length_cons]
    omega
  have hhead := splitCharsAux_sep_head r.data t.data
    ((t.data ++ '\n' :: '\n' :: r.data).length + 1) [] h hlen
  simp only [List.reverse_nil, List.nil_append] at hhead
  simp only [hdata, h22, List.isEmpty_cons, Bool.false_eq_true, if_false]
  rcases hsp : splitCharsAux ['\n', '\n']
      ((t.data ++ '\n' :: '\n' :: r.data).length + 1) []
      (t.data ++ '\n' :: '\n' :: r.data) with _ | ⟨x, xs⟩
  all_goals simp_all
  · rcases t with ⟨td⟩
    simp_all
  · subst hhead
    rcases xs with _ | ⟨y, ys⟩ <;> simp

lemma buildData_url_ne (path target v : String) (vendor : Bool)
    (hg : (splitStr path "/").headD "" = "github.com") :
    (buildData path target v vendor).URL ≠ "" := by
  simp only [List.headD_eq_head?_getD] at hg
  simp only [buildData, List.headD_eq_head?_getD, hg, if_pos]
  intro hcon
  have : ("https://" ++ path ++ "/tree/" ++ urlTree v).data = ("" : String).data :=
    congrArg String.data hcon
  simp [String.data_append] at this

lemma parseArgsLoop_after_path (rest : List String) :
    ∀ (p v : String) (pc : List String) (pu pr : Bool), p ≠ "" →
      parseArgsLoop rest p v pc pu pr =
        .ok ⟨p, v, pu, pr, pc ++ rest⟩ := by
  induction rest with
  | nil =>
    intro p v pc pu pr hp
    simp [parseArgsLoop, hp]
  | cons a rest ih =>
    intro p v pc pu pr hp
    rw [parseArgsLoop.eq_def]
    simp only [hp, false_and, if_false]
    rw [ih p v (pc ++ [a]) pu pr hp]
    simp

lemma parseArgsLoop_flagSeq (pre : List String) :
    ∀ (l : List String) (v : String) (pc : List String) (pu pr : Bool),
      flagSeqOk pre = true →
      ∃ v' pu' pr', parseArgsLoop (pre ++ l) "" v pc pu pr =
        parseArgsLoop l "" v' pc pu' pr' := by
  induction pre using flagSeqOk.induct with
  | case1 =>
    intro l v pc pu pr _
    exact ⟨v, pu, pr, rfl⟩
  | case2 a rest hknown ih =>
    intro l v pc pu pr hok
    rcases hknown with h1 | h1
    all_goals subst h1
    · have hok' : flagSeqOk rest = true := by
        unfold flagSeqOk at hok
        simpa using hok
      obtain ⟨v', pu', pr', hh⟩ := ih l v pc false pr hok'
      refine ⟨v', pu', pr', ?_⟩
      rw [← hh, List.cons_append, parseArgsLoop.eq_def]
      simp [hasPrefixStr, dropPrefixChars]
    · have hok' : flagSeqOk rest = true := by
        unfold flagSeqOk at hok
        simpa using hok
      obtain ⟨v', pu', pr', hh⟩ := ih l v pc pu false hok'
      refine ⟨v', pu', pr', ?_⟩
      rw [← hh, List.cons_append, parseArgsLoop.eq_def]
      simp [hasPrefixStr, dropPrefixChars]
  | case3 =>
    intro l v pc pu pr hok
    unfold flagSeqOk at hok
    simp at hok
  | case4 val rest2 hne ih =>
    intro l v pc pu pr hok
    have hok' : flagSeqOk rest2 = true := by
      unfold flagSeqOk at hok
      simpa using hok
    obtain ⟨v', pu', pr', hh⟩ := ih l val pc pu pr hok'
    refine ⟨v', pu', pr', ?_⟩
    rw [← hh, List.cons_append, List.cons_append, parseArgsLoop.eq_def]
    simp [hasPrefixStr, dropPrefixChars]
  | case5 a rest2 hn1 hn2 =>
    intro l v pc pu pr hok
    unfold flagSeqOk at hok
    rw [if_neg hn1, if_neg hn2] at hok
    simp at hok

/-! ### Claims -/
set_option maxHeartbeats 4000000 in
/-- Claim C1: the branch name the orchestrator creates (and queries on the
remote, and pushes) is exactly `update-` ++ project ++ `-` ++ newVersion,
where project is the final `/`-delimited segment of the dependency path
and newVersion is the version read from the manifest after the fetch; it
is a pure function of those two inputs. -/
theorem claim_C1 (cfg : Config) (w : World) (b : String)
    (h : Event.gitCheckoutB b ∈ (run cfg w).trace ∨
         Event.gitLsRemote b ∈ (run cfg w).trace ∨
         Event.gitPush b ∈ (run cfg w).trace) :
    ∃ nv, pkgVersion w.requireAfter cfg.path = some nv ∧
      b = "update-" ++ (splitStr cfg.path "/").getLastD "" ++ "-" ++ nv := by
  rcases run_cases cfg w with ⟨t1,c,hp,hrun⟩ | ⟨t1,oldV,t2,c,hp,hr,hrun⟩ |
    ⟨t1,oldV,t2,pr,ow,rp,t3,c,hp,hr,hu,hrun⟩ |
    ⟨t1,oldV,t2,pr,ow,rp,t3,tg,nv,t4,c,hp,hr,hu,ht,hrun⟩ |
    ⟨t1,oldV,t2,pr,ow,rp,t3,tg,nv,t4,sv,t5,c,hp,hr,hu,ht,hpo,hrun⟩ |
    ⟨t1,oldV,t2,pr,ow,rp,t3,tg,nv,t4,sv,t5,t6,c,hp,hr,hu,ht,hpo,hb,hrun⟩ |
    ⟨t1,oldV,t2,pr,ow,rp,t3,tg,nv,t4,sv,t5,t6,ob,hp,hr,hu,ht,hpo,hb,hrun⟩
  all_goals rw [hrun] at h
  · have e1 := preflight_events cfg w; rw [hp] at e1
    rcases h with h|h|h <;> rcases e1 _ h with h'|h'|h' <;> simp_all
  · have e1 := preflight_events cfg w; rw [hp] at e1
    have e2 := remoteStage_events cfg w; rw [hr] at e2
    rcases h with h|h|h <;> simp only [List.mem_append, or_assoc] at h <;>
      rcases h with h|h <;>
      first
        | (rcases e1 _ h with h'|h'|h' <;> simp_all)
        | (have h' := e2 _ h; simp_all)
  · have e1 := preflight_events cfg w; rw [hp] at e1
    have e2 := remoteStage_events cfg w; rw [hr] at e2
    have e3 := upgradeStage_events cfg w oldV; rw [hu] at e3
    rcases h with h|h|h <;> simp only [List.mem_append, or_assoc] at h <;>
      rcases h with h|h|h <;>
      first
        | (rcases e1 _ h with h'|h'|h' <;> simp_all)
        | (have h' := e2 _ h; simp_all)
        | (rcases e3 _ h with h'|h' <;> simp_all)
  · have e1 := preflight_events cfg w; rw [hp] at e1
    have e2 := remoteStage_events cfg w; rw [hr] at e2
    have e3 := upgradeStage_events cfg w oldV; rw [hu] at e3
    have e4 := tidyVendorStage_events w; rw [ht] at e4
    rcases h with h|h|h <;> simp only [List.mem_append, or_assoc] at h <;>
      rcases h with h|h|h|h <;>
      first
        | (rcases e1 _ h with h'|h'|h' <;> simp_all)
        | (have h' := e2 _ h; simp_all)
        | (rcases e3 _ h with h'|h' <;> simp_all)
        | (rcases e4 _ h with h'|h'|h' <;> simp_all)
  · have e1 := preflight_events cfg w; rw [hp] at e1
    have e2 := remoteStage_events cfg w; rw [hr] at e2
    have e3 := upgradeStage_events cfg w oldV; rw [hu] at e3
    have e4 := tidyVendorStage_events w; rw [ht] at e4
    have e5 := postStage_events cfg w; rw [hpo] at e5
    rcases h with h|h|h <;> simp only [List.mem_append, or_assoc] at h <;>
      rcases h with h|h|h|h|h <;>
      first
        | (rcases e1 _ h with h'|h'|h' <;> simp_all)
        | (have h' := e2 _ h; simp_all)
        | (rcases e3 _ h with h'|h' <;> simp_all)
        | (rcases e4 _ h with h'|h'|h' <;> simp_all)
        | (rcases e5 _ h with ⟨cc, h'⟩ <;> simp_all)
  · have e1 := preflight_events cfg w; rw [hp] at e1
    have e2 := remoteStage_events cfg w; rw [hr] at e2
    have e3 := upgradeStage_events cfg w oldV; rw [hu] at e3
    have e4 := tidyVendorStage_events w; rw [ht] at e4
    have e5 := postStage_events cfg w; rw [hpo] at e5
    have e6 := branchStage_events w (branchName cfg.path nv); rw [hb] at e6
    have hnv : pkgVersion w.requireAfter cfg.path = some nv :=
      (upgradeStage_cont cfg w oldV tg nv (by rw [hu])).2.1
    refine ⟨nv, hnv, ?_⟩
    rcases h with h|h|h <;> simp only [List.mem_append, or_assoc] at h <;>
      rcases h with h|h|h|h|h|h <;>
      first
        | (rcases e1 _ h with h'|h'|h' <;> simp_all)
        | (have h' := e2 _ h; simp_all)
        | (rcases e3 _ h with h'|h' <;> simp_all)
        | (rcases e4 _ h with h'|h'|h' <;> simp_all)
        | (rcases e5 _ h with ⟨cc, h'⟩ <;> simp_all)
        | (rcases e6 _ h with h'|h'|h'|h'|h' <;> simp_all [branchName])
  · have e1 := preflight_events cfg w; rw [hp] at e1
    have e2 := remoteStage_events cfg w; rw [hr] at e2
    have e3 := upgradeStage_events cfg w oldV; rw [hu] at e3
    have e4 := tidyVendorStage_events w; rw [ht] at e4
    have e5 := postStage_events cfg w; rw [hpo] at e5
    have e6 := branchStage_events w (branchName cfg.path nv); rw [hb] at e6
    have e7 := commitTail_events cfg w
      (renderCommitMessage (buildData cfg.path tg nv sv))
      (branchName cfg.path nv) ob ow rp pr
    have hnv : pkgVersion w.requireAfter cfg.path = some nv :=
      (upgradeStage_cont cfg w oldV tg nv (by rw [hu])).2.1
    refine ⟨nv, hnv, ?_⟩
    rcases h with h|h|h <;> simp only [List.mem_append, or_assoc] at h <;>
      rcases h with h|h|h|h|h|h|h <;>
      first
        | (rcases e1 _ h with h'|h'|h' <;> simp_all)
        | (have h' := e2 _ h; simp_all)
        | (rcases e3 _ h with h'|h' <;> simp_all)
        | (rcases e4 _ h with h'|h'|h' <;> simp_all)
        | (rcases e5 _ h with ⟨cc, h'⟩ <;> simp_all)
        | (rcases e6 _ h with h'|h'|h'|h'|h' <;> simp_all [branchName])
        | (rcases e7 _ h with ⟨m, h'⟩|h'|h'|⟨ti, bo, h'⟩ <;> simp_all [branchName])

/-- Witness for C1 at a concrete all-success run. -/
theorem claim_C1_witness :
    Event.gitCheckoutB "update-bar-v1.3.0" ∈ (run cfgOk wOk).trace ∧
    ∃ nv, pkgVersion wOk.requireAfter cfgOk.path = some nv ∧
      "update-bar-v1.3.0" =
        "update-" ++ (splitStr cfgOk.path "/").getLastD "" ++ "-" ++ nv :=
  ⟨by decide, claim_C1 cfgOk wOk "update-bar-v1.3.0" (Or.inl (by decide))⟩

/-- Counterexample for C2 as stated: with the requested version equal to
the pinned one, the later revision exits 1 (fatally), not 0. -/
theorem claim_C2_cex :
    pkgVersion wOk.requireBefore cfgPin.path = some cfgPin.version ∧
    (run cfgPin wOk).exitCode = 1 := by decide

set_option maxHeartbeats 1000000 in
/-- Claim C2 (amended): when the requested version equals the
already-pinned version, both revisions stop with no further external
effect, each exiting fatally (exit 1) — the later revision does NOT exit
0 here; when the version read after the fetch equals the version read
before it, the later revision exits 0 with an informational message and
the early revision exits fatally, in both cases performing no effect
beyond the second manifest read. -/
theorem claim_C2 (cfg : Config) (w : World) (v : String)
    (h1 : w.preTidyOk = true) (h2 : w.gitStatusOut = some "")
    (h3 : pkgVersion w.requireBefore cfg.path = some v) :
    (cfg.version = v →
      run cfg w = ⟨[Event.goModTidy, Event.gitStatus, Event.goModEditJson], 1⟩ ∧
      runEarly cfg w = ⟨[Event.gitStatus, Event.goModEditJson], 1⟩) ∧
    (∀ nv, cfg.version ≠ v → w.goGetOk = true →
      pkgVersion w.requireAfter cfg.path = some nv → nv = v →
      ((∀ res, (remoteStage cfg w).2 = Step.cont res →
        run cfg w = ⟨([Event.goModTidy, Event.gitStatus, Event.goModEditJson]
            ++ (remoteStage cfg w).1) ++
            [Event.goGet (targetOf cfg), Event.goModEditJson], 0⟩) ∧
      runEarly cfg w = ⟨[Event.gitStatus, Event.goModEditJson,
        Event.goGet (targetOf cfg), Event.goModEditJson], 1⟩)) := by
  constructor
  · intro hveq
    constructor
    · have hp : preflight cfg w =
          ([Event.goModTidy, Event.gitStatus, Event.goModEditJson],
            Step.exit 1) := by
        unfold preflight
        simp [h1, h2, h3, hveq]
      unfold run
      rw [hp]
    · unfold runEarly
      simp [h2, h3, hveq]
  · intro nv hne hget h4 hnveq
    constructor
    · intro res hres
      have hp : preflight cfg w =
          ([Event.goModTidy, Event.gitStatus, Event.goModEditJson],
            Step.cont v) := by
        unfold preflight
        simp [h1, h2, h3]
        intro hcon
        exact absurd hcon.symm hne
      have hu : upgradeStage cfg w v =
          ([Event.goGet (targetOf cfg), Event.goModEditJson],
            Step.exit 0) := by
        unfold upgradeStage
        simp [hget, h4, targetOf, hnveq]
      have hr : remoteStage cfg w = ((remoteStage cfg w).1, Step.cont res) := by
        rw [← hres]
      unfold run
      rw [hp]
      dsimp only
      rw [hr]
      dsimp only
      rw [hu]
    · unfold runEarly
      rw [h2]
      simp only [h3]
      rw [if_neg (by simp), if_neg (fun hcon => hne hcon.symm), if_neg (by simp [hget])]
      simp [h4, hnveq]

/-- Witness for C2 at concrete runs of both no-op kinds. -/
theorem claim_C2_witness :
    run cfgPin wOk =
      ⟨[Event.goModTidy, Event.gitStatus, Event.goModEditJson], 1⟩ ∧
    runEarly cfgPin wOk = ⟨[Event.gitStatus, Event.goModEditJson], 1⟩ ∧
    run cfgOk wSame =
      ⟨([Event.goModTidy, Event.gitStatus, Event.goModEditJson]
          ++ (remoteStage cfgOk wSame).1) ++
        [Event.goGet (targetOf cfgOk), Event.goModEditJson], 0⟩ ∧
    runEarly cfgOk wSame = ⟨[Event.gitStatus, Event.goModEditJson,
      Event.goGet (targetOf cfgOk), Event.goModEditJson], 1⟩ := by
  have h1 := (claim_C2 cfgPin wOk "v1.2.0" rfl rfl (by decide)).1 rfl
  have h2 := (claim_C2 cfgOk wSame "v1.2.0" rfl rfl (by decide)).2 "v1.2.0"
    (by decide) rfl (by decide) rfl
  exact ⟨h1.1, h1.2, h2.1 (true, "alice", "widget") (by decide), h2.2⟩

set_option maxHeartbeats 4000000 in
/-- Claim C3: on the remote-branch-collision path no local branch is ever
created and any zero exit is preceded by a hard reset of the working
tree; and whenever a local branch is created, the remote-collision query
occurs earlier in the trace, itself preceded by the upgrade fetch and a
tidy that follows the fetch. -/
theorem claim_C3 (cfg : Config) (w : World) :
    (∀ b s, Event.gitLsRemote b ∈ (run cfg w).trace →
      w.lsRemoteOut = some s → s ≠ "" →
        (∀ b', Event.gitCheckoutB b' ∉ (run cfg w).trace) ∧
        ((run cfg w).exitCode = 0 →
          Event.gitResetHard ∈ (run cfg w).trace)) ∧
    (∀ b, Event.gitCheckoutB b ∈ (run cfg w).trace →
      ∃ l1 t l2 l3, (run cfg w).trace =
        l1 ++ (Event.goGet t :: l2) ++ (Event.gitLsRemote b :: l3) ∧
        Event.goModTidy ∈ l2 ∧ Event.gitCheckoutB b ∈ l3) := by
  rcases run_cases cfg w with ⟨t1,c,hp,hrun⟩ | ⟨t1,oldV,t2,c,hp,hr,hrun⟩ |
    ⟨t1,oldV,t2,pr,ow,rp,t3,c,hp,hr,hu,hrun⟩ |
    ⟨t1,oldV,t2,pr,ow,rp,t3,tg,nv,t4,c,hp,hr,hu,ht,hrun⟩ |
    ⟨t1,oldV,t2,pr,ow,rp,t3,tg,nv,t4,sv,t5,c,hp,hr,hu,ht,hpo,hrun⟩ |
    ⟨t1,oldV,t2,pr,ow,rp,t3,tg,nv,t4,sv,t5,t6,c,hp,hr,hu,ht,hpo,hb,hrun⟩ |
    ⟨t1,oldV,t2,pr,ow,rp,t3,tg,nv,t4,sv,t5,t6,ob,hp,hr,hu,ht,hpo,hb,hrun⟩
  all_goals rw [hrun]
  -- cases 1-5: no gitLsRemote and no gitCheckoutB occurs at all
  · have e1 := preflight_events cfg w; rw [hp] at e1
    constructor
    · intro b s hmem
      rcases e1 _ hmem with h'|h'|h' <;> simp_all
    · intro b hmem
      rcases e1 _ hmem with h'|h'|h' <;> simp_all
  · have e1 := preflight_events cfg w; rw [hp] at e1
    have e2 := remoteStage_events cfg w; rw [hr] at e2
    constructor
    · intro b s hmem
      simp only [List.mem_append] at hmem
      rcases hmem with h|h
      · rcases e1 _ h with h'|h'|h' <;> simp_all
      · have h' := e2 _ h; simp_all
    · intro b hmem
      simp only [List.mem_append] at hmem
      rcases hmem with h|h
      · rcases e1 _ h with h'|h'|h' <;> simp_all
      · have h' := e2 _ h; simp_all
  · have e1 := preflight_events cfg w; rw [hp] at e1
    have e2 := remoteStage_events cfg w; rw [hr] at e2
    have e3 := upgradeStage_events cfg w oldV; rw [hu] at e3
    constructor
    · intro b s hmem
      simp only [List.mem_append, or_assoc] at hmem
      rcases hmem with h|h|h
      · rcases e1 _ h with h'|h'|h' <;> simp_all
      · have h' := e2 _ h; simp_all
      · rcases e3 _ h with h'|h' <;> simp_all
    · intro b hmem
      simp only [List.mem_append, or_assoc] at hmem
      rcases hmem with h|h|h
      · rcases e1 _ h with h'|h'|h' <;> simp_all
      · have h' := e2 _ h; simp_all
      · rcases e3 _ h with h'|h' <;> simp_all
  · have e1 := preflight_events cfg w; rw [hp] at e1
    have e2 := remoteStage_events cfg w; rw [hr] at e2
    have e3 := upgradeStage_events cfg w oldV; rw [hu] at e3
    have e4 := tidyVendorStage_events w; rw [ht] at e4
    constructor
    · intro b s hmem
      simp only [List.mem_append, or_assoc] at hmem
      rcases hmem with h|h|h|h
      · rcases e1 _ h with h'|h'|h' <;> simp_all
      · have h' := e2 _ h; simp_all
      · rcases e3 _ h with h'|h' <;> simp_all
      · rcases e4 _ h with h'|h'|h' <;> simp_all
    · intro b hmem
      simp only [List.mem_append, or_assoc] at hmem
      rcases hmem with h|h|h|h
      · rcases e1 _ h with h'|h'|h' <;> simp_all
      · have h' := e2 _ h; simp_all
      · rcases e3 _ h with h'|h' <;> simp_all
      · rcases e4 _ h with h'|h'|h' <;> simp_all
  · have e1 := preflight_events cfg w; rw [hp] at e1
    have e2 := remoteStage_events cfg w; rw [hr] at e2
    have e3 := upgradeStage_events cfg w oldV; rw [hu] at e3
    have e4 := tidyVendorStage_events w; rw [ht] at e4
    have e5 := postStage_events cfg w; rw [hpo] at e5
    constructor
    · intro b s hmem
      simp only [List.mem_append, or_assoc] at hmem
      rcases hmem with h|h|h|h|h
      · rcases e1 _ h with h'|h'|h' <;> simp_all
      · have h' := e2 _ h; simp_all
      · rcases e3 _ h with h'|h' <;> simp_all
      · rcases e4 _ h with h'|h'|h' <;> simp_all
      · rcases e5 _ h with ⟨cc, h'⟩ <;> simp_all
    · intro b hmem
      simp only [List.mem_append, or_assoc] at hmem
      rcases hmem with h|h|h|h|h
      · rcases e1 _ h with h'|h'|h' <;> simp_all
      · have h' := e2 _ h; simp_all
      · rcases e3 _ h with h'|h' <;> simp_all
      · rcases e4 _ h with h'|h'|h' <;> simp_all
      · rcases e5 _ h with ⟨cc, h'⟩ <;> simp_all
  -- case 6: branchStage exits (collision or failure)
  · have e1 := preflight_events cfg w; rw [hp] at e1
    have e2 := remoteStage_events cfg w; rw [hr] at e2
    have e3 := upgradeStage_events cfg w oldV; rw [hu] at e3
    have e4 := tidyVendorStage_events w; rw [ht] at e4
    have e5 := postStage_events cfg w; rw [hpo] at e5
    constructor
    · intro b s hmem hls hne
      have hcol := branchStage_collision w (branchName cfg.path nv) s hls hne
      constructor
      · intro b' hmem'
        simp only [List.mem_append, or_assoc] at hmem'
        rcases hmem' with h|h|h|h|h|h
        · rcases e1 _ h with h'|h'|h' <;> simp_all
        · have h' := e2 _ h; simp_all
        · rcases e3 _ h with h'|h' <;> simp_all
        · rcases e4 _ h with h'|h'|h' <;> simp_all
        · rcases e5 _ h with ⟨cc, h'⟩ <;> simp_all
        · exact hcol.1 b' (by rw [hb]; exact h)
      · intro hc0
        have : c = 0 := hc0
        have hreset := (hcol.2.1 c (by rw [hb])) this
        rw [hb] at hreset
        simp only [List.mem_append]
        tauto
    · intro b hmem
      simp only [List.mem_append, or_assoc] at hmem
      have hcb : Event.gitCheckoutB b ∈ (branchStage w (branchName cfg.path nv)).1 := by
        rw [hb]
        rcases hmem with h|h|h|h|h|h
        · rcases e1 _ h with h'|h'|h' <;> simp_all
        · have h' := e2 _ h; simp_all
        · rcases e3 _ h with h'|h' <;> simp_all
        · rcases e4 _ h with h'|h'|h' <;> simp_all
        · rcases e5 _ h with ⟨cc, h'⟩ <;> simp_all
        · exact h
      obtain ⟨hbbr, l, hshape⟩ := branchStage_checkoutB w (branchName cfg.path nv) b hcb
      rw [hb] at hshape
      have ht3 : t3 = [Event.goGet (targetOf cfg), Event.goModEditJson] := by
        have h0 := (upgradeStage_cont cfg w oldV tg nv (by rw [hu])).2.2.2
        rw [hu] at h0; exact h0
      have ht6 : t6 = Event.gitRevParseHead ::
          Event.gitLsRemote (branchName cfg.path nv) ::
          Event.gitCheckoutB (branchName cfg.path nv) :: l := hshape
      obtain ⟨l4, ht4⟩ := tidyVendorStage_head w
      rw [ht] at ht4
      have ht4' : t4 = Event.goModTidy :: l4 := ht4
      refine ⟨t1 ++ t2, targetOf cfg,
        Event.goModEditJson :: (t4 ++ t5 ++ [Event.gitRevParseHead]),
        Event.gitCheckoutB (branchName cfg.path nv) :: l, ?_, ?_, ?_⟩
      · rw [ht3, ht6, hbbr]
        simp [List.append_assoc]
      · simp [ht4']
      · simp [hbbr]
  -- case 7: branchStage continues
  · have e1 := preflight_events cfg w; rw [hp] at e1
    have e2 := remoteStage_events cfg w; rw [hr] at e2
    have e3 := upgradeStage_events cfg w oldV; rw [hu] at e3
    have e4 := tidyVendorStage_events w; rw [ht] at e4
    have e5 := postStage_events cfg w; rw [hpo] at e5
    constructor
    · intro b s hmem hls hne
      have hcol := branchStage_collision w (branchName cfg.path nv) s hls hne
      exact absurd (show (branchStage w (branchName cfg.path nv)).2 =
        Step.cont ob by rw [hb]) (hcol.2.2 ob)
    · intro b hmem
      simp only [List.mem_append, or_assoc] at hmem
      have e7 := commitTail_events cfg w
        (renderCommitMessage (buildData cfg.path tg nv sv))
        (branchName cfg.path nv) ob ow rp pr
      have hcb : Event.gitCheckoutB b ∈ (branchStage w (branchName cfg.path nv)).1 := by
        rw [hb]
        rcases hmem with h|h|h|h|h|h|h
        · rcases e1 _ h with h'|h'|h' <;> simp_all
        · have h' := e2 _ h; simp_all
        · rcases e3 _ h with h'|h' <;> simp_all
        · rcases e4 _ h with h'|h'|h' <;> simp_all
        · rcases e5 _ h with ⟨cc, h'⟩ <;> simp_all
        · exact h
        · rcases e7 _ h with ⟨m, h'⟩|h'|h'|⟨ti, bo, h'⟩ <;> simp_all
      obtain ⟨hbbr, l, hshape⟩ := branchStage_checkoutB w (branchName cfg.path nv) b hcb
      rw [hb] at hshape
      have ht3 : t3 = [Event.goGet (targetOf cfg), Event.goModEditJson] := by
        have h0 := (upgradeStage_cont cfg w oldV tg nv (by rw [hu])).2.2.2
        rw [hu] at h0; exact h0
      have ht6 : t6 = Event.gitRevParseHead ::
          Event.gitLsRemote (branchName cfg.path nv) ::
          Event.gitCheckoutB (branchName cfg.path nv) :: l := hshape
      obtain ⟨l4, ht4⟩ := tidyVendorStage_head w
      rw [ht] at ht4
      have ht4' : t4 = Event.goModTidy :: l4 := ht4
      refine ⟨t1 ++ t2, targetOf cfg,
        Event.goModEditJson :: (t4 ++ t5 ++ [Event.gitRevParseHead]),
        Event.gitCheckoutB (branchName cfg.path nv) ::
          (l ++ (commitTail cfg w
            (renderCommitMessage (buildData cfg.path tg nv sv))
            (branchName cfg.path nv) ob ow rp pr).1), ?_, ?_, ?_⟩
      · rw [ht3, ht6, hbbr]
        simp [List.append_assoc]
      · simp [ht4']
      · simp [hbbr]

/-- Witness for C3: a concrete collision run and a concrete committing
run. -/
theorem claim_C3_witness :
    Event.gitCheckoutB "update-bar-v1.3.0" ∉ (run cfgOk wColl).trace ∧
    Event.gitResetHard ∈ (run cfgOk wColl).trace ∧
    ∃ l1 t l2 l3, (run cfgOk wOk).trace =
      l1 ++ (Event.goGet t :: l2) ++
        (Event.gitLsRemote "update-bar-v1.3.0" :: l3) ∧
      Event.goModTidy ∈ l2 ∧
      Event.gitCheckoutB "update-bar-v1.3.0" ∈ l3 := by
  have h1 := (claim_C3 cfgOk wColl).1 "update-bar-v1.3.0"
    "refs/heads/update-bar-v1.3.0" (by decide) rfl (by decide)
  have h2 := (claim_C3 cfgOk wOk).2 "update-bar-v1.3.0" (by decide)
  exact ⟨h1.1 "update-bar-v1.3.0", h1.2 (by decide), h2⟩

/-- Counterexample for C4 as stated: push and PR enabled and a token
present, but the remote URL fails URL-parsing and has no user@host
prefix, so the run aborts fatally instead of silently skipping PR
submission — the recognized-host condition is absent yet the skip is
neither silent nor non-fatal (the run never even reaches the upgrade). -/
theorem claim_C4_cex :
    cfgOk.push = true ∧ cfgOk.pr = true ∧ wBad.githubToken ≠ "" ∧
    remoteHost cfgOk wBad = none ∧
    (run cfgOk wBad).exitCode = 1 ∧
    (run cfgOk wBad).trace = [Event.goModTidy, Event.gitStatus,
      Event.goModEditJson, Event.gitRemoteGetUrl] := by decide

set_option maxHeartbeats 4000000 in
/-- Claim C4 (amended): in a run whose fallible steps all succeed and
whose remote check completes without exiting, PR submission is attempted
if and only if pushing is enabled, PR is not disabled, the remote host is
`github.com`, and a token is present; when any of the four conditions is
absent the run still exits 0 with no PR request.  (As stated the original
claim is false: an unparsable remote URL without a `user@host` prefix
aborts fatally even though the recognized-host condition is merely
absent; see the counterexample.) -/
theorem claim_C4 (cfg : Config) (w : World)
    (hok : PipelineOk cfg w) :
    ((∃ o r ti bo hd, Event.githubCreatePR o r ti bo hd ∈ (run cfg w).trace) ↔
      prConditions cfg w) ∧
    (¬ prConditions cfg w → (run cfg w).exitCode = 0 ∧
      ∀ o r ti bo hd, Event.githubCreatePR o r ti bo hd ∉ (run cfg w).trace) := by
  obtain ⟨h1, h2, ⟨v, nv, h3, h4, hne, hnne⟩, hget, htidy, hvs, hvok,
    hpost, ⟨rb, hrb⟩, hls, hcb, had, hcom, hpu, hco, hnr, hh, hrd, hj, hcr,
    ⟨res, hres⟩⟩ := hok
  obtain ⟨p, ow, rp⟩ := res
  -- stage results
  have hp : preflight cfg w =
      ([Event.goModTidy, Event.gitStatus, Event.goModEditJson],
        Step.cont v) := by
    unfold preflight
    simp [h1, h2, h3]
    intro hcon
    exact absurd hcon hne
  have hr : remoteStage cfg w = ((remoteStage cfg w).1, Step.cont (p, ow, rp)) := by
    rw [← hres]
  have hu : upgradeStage cfg w v =
      ([Event.goGet (targetOf cfg), Event.goModEditJson],
        Step.cont (targetOf cfg, nv)) := by
    unfold upgradeStage
    simp [hget, h4, targetOf, hnne]
  obtain ⟨t4, ht⟩ : ∃ t4, tidyVendorStage w =
      (t4, Step.cont (decide (w.vendorStat = VendorStat.absent))) := by
    unfold tidyVendorStage
    cases hv : w.vendorStat with
    | statErr => exact absurd hv hvs
    | absent =>
      exact ⟨[Event.goModTidy, Event.statVendorModules],
        by simp [htidy, hv]⟩
    | present =>
      exact ⟨[Event.goModTidy, Event.statVendorModules, Event.goModVendor],
        by simp [htidy, hv, hvok]⟩
  obtain ⟨t5, hpo⟩ : ∃ t5, postStage cfg w = (t5, Step.cont ()) := by
    unfold postStage
    rcases hemp : cfg.postCmdRaw.isEmpty with _ | _
    · rcases hpost with he | ⟨r, hr1, hr2⟩
      · rw [he] at hemp
        simp at hemp
      · exact ⟨[Event.postCommand r], by simp [hemp, hr1, hr2]⟩
    · exact ⟨[], by simp [hemp]⟩
  have hb : branchStage w (branchName cfg.path nv) =
      ([Event.gitRevParseHead, Event.gitLsRemote (branchName cfg.path nv),
        Event.gitCheckoutB (branchName cfg.path nv), Event.gitAddAll],
        Step.cont (trimSpaceStr rb)) := by
    unfold branchStage
    simp [hrb, hls, hcb, had]
  have hrun : run cfg w = ⟨[Event.goModTidy, Event.gitStatus,
      Event.goModEditJson] ++ (remoteStage cfg w).1 ++
      [Event.goGet (targetOf cfg), Event.goModEditJson] ++
      t4 ++ t5 ++
      [Event.gitRevParseHead, Event.gitLsRemote (branchName cfg.path nv),
        Event.gitCheckoutB (branchName cfg.path nv), Event.gitAddAll] ++
      (commitTail cfg w
        (renderCommitMessage (buildData cfg.path (targetOf cfg) nv
          (decide (w.vendorStat = VendorStat.absent))))
        (branchName cfg.path nv) (trimSpaceStr rb) ow rp p).1,
      (commitTail cfg w
        (renderCommitMessage (buildData cfg.path (targetOf cfg) nv
          (decide (w.vendorStat = VendorStat.absent))))
        (branchName cfg.path nv) (trimSpaceStr rb) ow rp p).2⟩ := by
    unfold run
    rw [hp]; dsimp only
    rw [hr]; dsimp only
    rw [hu]; dsimp only
    rw [ht]; dsimp only
    rw [hpo]; dsimp only
    rw [hb]
  have hfull := commitTail_full cfg w
    (renderCommitMessage (buildData cfg.path (targetOf cfg) nv
      (decide (w.vendorStat = VendorStat.absent))))
    (branchName cfg.path nv) (trimSpaceStr rb) ow rp p
    hcom hpu hco hnr hh hrd hj hcr
  have hpiff := remoteStage_cont_pr cfg w p ow rp hres
  -- membership in the non-commitTail part is impossible
  have hnotpr : ∀ o r ti bo hd, Event.githubCreatePR o r ti bo hd ∈
      ([Event.goModTidy, Event.gitStatus, Event.goModEditJson] ++
        (remoteStage cfg w).1 ++
        [Event.goGet (targetOf cfg), Event.goModEditJson] ++
        t4 ++ t5 ++
        [Event.gitRevParseHead, Event.gitLsRemote (branchName cfg.path nv),
          Event.gitCheckoutB (branchName cfg.path nv), Event.gitAddAll]) →
      False := by
    intro o r ti bo hd hmem
    have e4 := tidyVendorStage_events w
    rw [ht] at e4
    have e5 := postStage_events cfg w
    rw [hpo] at e5
    simp only [List.mem_append, or_assoc] at hmem
    rcases hmem with h|h|h|h|h|h
    · simp at h
    · have := remoteStage_events cfg w _ h
      simp at this
    · simp at h
    · rcases e4 _ h with h'|h'|h' <;> simp at h'
    · obtain ⟨cc, h'⟩ := e5 _ h
      simp at h'
    · simp at h
  constructor
  · constructor
    · rintro ⟨o, r, ti, bo, hd, hmem⟩
      rw [hrun] at hmem
      simp only [List.mem_append] at hmem
      rcases hmem with hmem | hmem
      · exact absurd (by simpa [List.mem_append, or_assoc] using hmem)
          (by intro hmm
              exact hnotpr o r ti bo hd (by simpa [List.mem_append, or_assoc] using hmm))
      · -- PR event inside commitTail: p must be true
        rcases hq : p with _ | _
        · exact absurd hmem (by
            have := hfull.2.2 (by rw [hq])
            rw [hq] at this ⊢
            exact this o r ti bo hd)
        · exact hpiff.mp hq
    · intro hconds
      have hp' : p = true := hpiff.mpr hconds
      refine ⟨ow, rp,
        (splitTitleBody (renderCommitMessage (buildData cfg.path
          (targetOf cfg) nv (decide (w.vendorStat = VendorStat.absent))))).1,
        (splitTitleBody (renderCommitMessage (buildData cfg.path
          (targetOf cfg) nv (decide (w.vendorStat = VendorStat.absent))))).2,
        branchName cfg.path nv, ?_⟩
      rw [hrun]
      simp only [List.mem_append]
      right
      exact hfull.2.1 hp'
  · intro hnc
    have hp' : p = false := by
      cases hq : p
      · rfl
      · exact absurd (hpiff.mp hq) hnc
    constructor
    · rw [hrun]
      exact hfull.1
    · intro o r ti bo hd hmem
      rw [hrun] at hmem
      simp only [List.mem_append] at hmem
      rcases hmem with hmem | hmem
      · exact hnotpr o r ti bo hd (by simpa [List.mem_append, or_assoc] using hmem)
      · exact hfull.2.2 hp' o r ti bo hd hmem

/-- Witness for C4 at a concrete all-success run. -/
theorem claim_C4_witness :
    PipelineOk cfgOk wOk ∧
    ((∃ o r ti bo hd,
        Event.githubCreatePR o r ti bo hd ∈ (run cfgOk wOk).trace) ↔
      prConditions cfgOk wOk) := by
  have hpipe : PipelineOk cfgOk wOk := by
    refine ⟨rfl, rfl,
      ⟨"v1.2.0", "v1.3.0", by decide, by decide, by decide, by decide⟩,
      rfl, rfl, by decide, rfl, Or.inl rfl, ⟨"master", rfl⟩, rfl, rfl,
      rfl, rfl, rfl, rfl, rfl, rfl, rfl, fun _ => rfl, rfl,
      ⟨(true, "alice", "widget"), by decide⟩⟩
  exact ⟨hpipe, (claim_C4 cfgOk wOk hpipe).1⟩

/-- Claim C5: if the new version matches `v<major>.<minor>.<patch>`, the
human-readable version field is the string with the leading `v` stripped
and the URL tree segment is the raw tag; otherwise the version is treated
as a pseudo-version and the tree segment is its trailing hyphen-delimited
segment — with the claim's two concrete examples. -/
theorem claim_C5 (path target v : String) (vendor : Bool) :
    (vreMatch v = true →
      (buildData path target v vendor).Version = dropStr v 1 ∧
      ((splitStr path "/").headD "" = "github.com" →
        (buildData path target v vendor).URL =
          "https://" ++ path ++ "/tree/" ++ v)) ∧
    (vreMatch v = false →
      (buildData path target v vendor).Version = "" ∧
      ((splitStr path "/").headD "" = "github.com" →
        (buildData path target v vendor).URL =
          "https://" ++ path ++ "/tree/" ++ (splitStr v "-").getLastD "")) ∧
    (vreMatch "v1.4.2" = true ∧ dropStr "v1.4.2" 1 = "1.4.2" ∧
      urlTree "v1.4.2" = "v1.4.2" ∧
      vreMatch "v0.0.0-20230101000000-abcdef123456" = false ∧
      urlTree "v0.0.0-20230101000000-abcdef123456" = "abcdef123456") := by
  refine ⟨?_, ?_, by decide, by decide, by decide, by decide, by decide⟩
  · intro hv
    simp only [List.headD_eq_head?_getD] at *
    refine ⟨by simp [buildData, hv], fun hg => ?_⟩
    simp [buildData, hg, urlTree, hv]
  · intro hv
    simp only [List.headD_eq_head?_getD] at *
    refine ⟨by simp [buildData, hv], fun hg => ?_⟩
    simp [buildData, hg, urlTree, hv]

/-- Witness for C5 at the claim's concrete versions. -/
theorem claim_C5_witness :
    (buildData "github.com/foo/bar" "github.com/foo/bar@v1.4.2" "v1.4.2"
      true).Version = "1.4.2" ∧
    (buildData "github.com/foo/bar" "github.com/foo/bar@v1.4.2" "v1.4.2"
      true).URL = "https://github.com/foo/bar/tree/v1.4.2" ∧
    (buildData "github.com/x/y" "github.com/x/y"
      "v0.0.0-20230101000000-abcdef123456" true).URL =
      "https://github.com/x/y/tree/abcdef123456" := by
  have h1 := (claim_C5 "github.com/foo/bar" "github.com/foo/bar@v1.4.2"
    "v1.4.2" true).1 (by decide)
  have h2 := (claim_C5 "github.com/x/y" "github.com/x/y"
    "v0.0.0-20230101000000-abcdef123456" true).2.1 (by decide)
  exact ⟨h1.1.trans (by decide), (h1.2 (by decide)).trans (by decide),
    (h2.2 (by decide)).trans (by decide)⟩

/-- Claim C6: the release URL is populated, as
`https://<path>/tree/<tree>`, exactly when the first `/`-delimited
segment of the dependency path equals `github.com`; for every other path
it is empty and the rendered commit message is the fixed text with no URL
line (just the blank line where it would be). -/
theorem claim_C6 (path target v : String) (vendor : Bool) :
    ((buildData path target v vendor).URL ≠ "" ↔
      (splitStr path "/").headD "" = "github.com") ∧
    ((splitStr path "/").headD "" = "github.com" →
      (buildData path target v vendor).URL =
        "https://" ++ path ++ "/tree/" ++ urlTree v) ∧
    ((splitStr path "/").headD "" ≠ "github.com" →
      (buildData path target v vendor).URL = "" ∧
      renderCommitMessage (buildData path target v vendor) =
        "modules: upgrade " ++
          htmlEscape ((splitStr path "/").getLastD "") ++ " to " ++
          htmlEscape (if vreMatch v then dropStr v 1 else "") ++
        "\n\nThis updates:\n  " ++ htmlEscape path ++
        "\n\nTo version " ++
          htmlEscape (if vreMatch v then dropStr v 1 else "") ++
        ".\n\nExecuted via:\n\n  go get " ++ htmlEscape target ++
        "\n  go mod tidy\n" ++
          (if vendor then "" else "  go mod vendor") ++
        "\n\nFor details on changes, see the project's release page.\n" ++
        "\n\nThis commit message was auto-generated.") := by
  refine ⟨⟨fun hne => ?_, fun hg => buildData_url_ne path target v vendor hg⟩,
    fun hg => by
      simp only [List.headD_eq_head?_getD] at hg
      simp [buildData, hg], fun hng => ?_⟩
  · by_contra hng
    refine hne ?_
    simp only [List.headD_eq_head?_getD] at hng
    simp [buildData, hng]
  · simp only [List.headD_eq_head?_getD] at hng
    have hurl : (buildData path target v vendor).URL = "" := by
      simp [buildData, hng]
    refine ⟨hurl, ?_⟩
    cases vendor <;> simp [renderCommitMessage, hurl, buildData, hng]

/-- Witness for C6 at a non-recognized and a recognized host. -/
theorem claim_C6_witness :
    (buildData "gitlab.com/foo/bar" "gitlab.com/foo/bar" "v1.0.0"
      true).URL = "" ∧
    (buildData "github.com/foo/bar" "github.com/foo/bar" "v1.0.0"
      true).URL ≠ "" :=
  ⟨((claim_C6 "gitlab.com/foo/bar" "gitlab.com/foo/bar" "v1.0.0"
      true).2.2 (by decide)).1,
    ((claim_C6 "github.com/foo/bar" "github.com/foo/bar" "v1.0.0"
      true).1).mpr (by decide)⟩

/-- Counterexample for C7 as stated: in a concrete run with a post-update
command, the command executes at trace position 8, before the current
branch is even read — no branch creation and no staging has happened yet,
refuting "executed after the new branch has been created and all changes
have been staged". -/
theorem claim_C7_cex :
    cfgPost.postCmdRaw ≠ [] ∧
    (run cfgPost wPost).trace.take 9 = [Event.goModTidy, Event.gitStatus,
      Event.goModEditJson, Event.gitRemoteGetUrl,
      Event.goGet "github.com/foo/bar@v1.3.0", Event.goModEditJson,
      Event.goModTidy, Event.statVendorModules,
      Event.postCommand ["./after.sh"]] ∧
    Event.gitCheckoutB "update-bar-v1.3.0" ∈
      (run cfgPost wPost).trace.drop 9 ∧
    Event.gitCheckoutB "update-bar-v1.3.0" ∉
      (run cfgPost wPost).trace.take 9 ∧
    Event.gitAddAll ∉ (run cfgPost wPost).trace.take 9 := by decide

set_option maxHeartbeats 4000000 in
/-- Claim C7 (amended): when a post-update command list is supplied, the
command is rendered and executed after the upgrade/tidy/vendor steps and
BEFORE the branch is created and the changes are staged: every committing
run's trace decomposes as post-command, then branch creation, then
staging, then the commit.  (The original claim's order
branched → staged → post-cmd → committed is refuted by the
counterexample.) -/
theorem claim_C7 (cfg : Config) (w : World) (m : String)
    (hc : Event.gitCommit m ∈ (run cfg w).trace)
    (hpost : cfg.postCmdRaw ≠ []) :
    ∃ r l1 l2 l3 l4 b, (run cfg w).trace =
      l1 ++ (Event.postCommand r :: l2) ++ (Event.gitCheckoutB b :: l3) ++
        (Event.gitAddAll :: l4) ∧ Event.gitCommit m ∈ l4 := by
  rcases run_cases cfg w with ⟨t1,c,hp,hrun⟩ | ⟨t1,oldV,t2,c,hp,hr,hrun⟩ |
    ⟨t1,oldV,t2,pr,ow,rp,t3,c,hp,hr,hu,hrun⟩ |
    ⟨t1,oldV,t2,pr,ow,rp,t3,tg,nv,t4,c,hp,hr,hu,ht,hrun⟩ |
    ⟨t1,oldV,t2,pr,ow,rp,t3,tg,nv,t4,sv,t5,c,hp,hr,hu,ht,hpo,hrun⟩ |
    ⟨t1,oldV,t2,pr,ow,rp,t3,tg,nv,t4,sv,t5,t6,c,hp,hr,hu,ht,hpo,hb,hrun⟩ |
    ⟨t1,oldV,t2,pr,ow,rp,t3,tg,nv,t4,sv,t5,t6,ob,hp,hr,hu,ht,hpo,hb,hrun⟩
  all_goals rw [hrun] at hc ⊢
  all_goals simp only [List.mem_append, or_assoc] at hc
  · have e1 := preflight_events cfg w; rw [hp] at e1
    rcases e1 _ hc with h'|h'|h' <;> simp_all
  · have e1 := preflight_events cfg w; rw [hp] at e1
    have e2 := remoteStage_events cfg w; rw [hr] at e2
    rcases hc with h|h
    · rcases e1 _ h with h'|h'|h' <;> simp_all
    · have h' := e2 _ h; simp_all
  · have e1 := preflight_events cfg w; rw [hp] at e1
    have e2 := remoteStage_events cfg w; rw [hr] at e2
    have e3 := upgradeStage_events cfg w oldV; rw [hu] at e3
    rcases hc with h|h|h
    · rcases e1 _ h with h'|h'|h' <;> simp_all
    · have h' := e2 _ h; simp_all
    · rcases e3 _ h with h'|h' <;> simp_all
  · have e1 := preflight_events cfg w; rw [hp] at e1
    have e2 := remoteStage_events cfg w; rw [hr] at e2
    have e3 := upgradeStage_events cfg w oldV; rw [hu] at e3
    have e4 := tidyVendorStage_events w; rw [ht] at e4
    rcases hc with h|h|h|h
    · rcases e1 _ h with h'|h'|h' <;> simp_all
    · have h' := e2 _ h; simp_all
    · rcases e3 _ h with h'|h' <;> simp_all
    · rcases e4 _ h with h'|h'|h' <;> simp_all
  · have e1 := preflight_events cfg w; rw [hp] at e1
    have e2 := remoteStage_events cfg w; rw [hr] at e2
    have e3 := upgradeStage_events cfg w oldV; rw [hu] at e3
    have e4 := tidyVendorStage_events w; rw [ht] at e4
    have e5 := postStage_events cfg w; rw [hpo] at e5
    rcases hc with h|h|h|h|h
    · rcases e1 _ h with h'|h'|h' <;> simp_all
    · have h' := e2 _ h; simp_all
    · rcases e3 _ h with h'|h' <;> simp_all
    · rcases e4 _ h with h'|h'|h' <;> simp_all
    · rcases e5 _ h with ⟨cc, h'⟩ <;> simp_all
  · have e1 := preflight_events cfg w; rw [hp] at e1
    have e2 := remoteStage_events cfg w; rw [hr] at e2
    have e3 := upgradeStage_events cfg w oldV; rw [hu] at e3
    have e4 := tidyVendorStage_events w; rw [ht] at e4
    have e5 := postStage_events cfg w; rw [hpo] at e5
    have e6 := branchStage_events w (branchName cfg.path nv); rw [hb] at e6
    rcases hc with h|h|h|h|h|h
    · rcases e1 _ h with h'|h'|h' <;> simp_all
    · have h' := e2 _ h; simp_all
    · rcases e3 _ h with h'|h' <;> simp_all
    · rcases e4 _ h with h'|h'|h' <;> simp_all
    · rcases e5 _ h with ⟨cc, h'⟩ <;> simp_all
    · rcases e6 _ h with h'|h'|h'|h'|h' <;> simp_all
  · have e1 := preflight_events cfg w; rw [hp] at e1
    have e2 := remoteStage_events cfg w; rw [hr] at e2
    have e3 := upgradeStage_events cfg w oldV; rw [hu] at e3
    have e4 := tidyVendorStage_events w; rw [ht] at e4
    have e5 := postStage_events cfg w; rw [hpo] at e5
    have e6 := branchStage_events w (branchName cfg.path nv); rw [hb] at e6
    have hc7 : Event.gitCommit m ∈ (commitTail cfg w
        (renderCommitMessage (buildData cfg.path tg nv sv))
        (branchName cfg.path nv) ob ow rp pr).1 := by
      rcases hc with h|h|h|h|h|h|h
      · rcases e1 _ h with h'|h'|h' <;> simp_all
      · have h' := e2 _ h; simp_all
      · rcases e3 _ h with h'|h' <;> simp_all
      · rcases e4 _ h with h'|h'|h' <;> simp_all
      · rcases e5 _ h with ⟨cc, h'⟩ <;> simp_all
      · rcases e6 _ h with h'|h'|h'|h'|h' <;> simp_all
      · exact h
    have ht5 : ∃ r, t5 = [Event.postCommand r] := by
      obtain ⟨r, _, hr5⟩ := postStage_cont_trace cfg w hpost (by rw [hpo])
      rw [hpo] at hr5
      exact ⟨r, hr5⟩
    obtain ⟨r, ht5⟩ := ht5
    have ht6 : t6 = [Event.gitRevParseHead,
        Event.gitLsRemote (branchName cfg.path nv),
        Event.gitCheckoutB (branchName cfg.path nv), Event.gitAddAll] := by
      have h0 := branchStage_cont_trace w (branchName cfg.path nv) ob
        (by rw [hb])
      rw [hb] at h0
      exact h0
    refine ⟨r, t1 ++ t2 ++ t3 ++ t4,
      [Event.gitRevParseHead, Event.gitLsRemote (branchName cfg.path nv)],
      [], (commitTail cfg w
        (renderCommitMessage (buildData cfg.path tg nv sv))
        (branchName cfg.path nv) ob ow rp pr).1,
      branchName cfg.path nv, ?_, hc7⟩
    rw [ht5, ht6]
    simp [List.append_assoc]

set_option maxRecDepth 40000 in
/-- Witness for C7 at a concrete run with a post-update command. -/
theorem claim_C7_witness :
    ∃ r l1 l2 l3 l4 b, (run cfgPost wPost).trace =
      l1 ++ (Event.postCommand r :: l2) ++ (Event.gitCheckoutB b :: l3) ++
        (Event.gitAddAll :: l4) ∧
      Event.gitCommit (renderCommitMessage (buildData "github.com/foo/bar"
        "github.com/foo/bar@v1.3.0" "v1.3.0" true)) ∈ l4 :=
  claim_C7 cfgPost wPost _ (by decide) (by decide)

/-- Claim C8: the code evaluated at the failing input.  With an HTTPS
remote that `url.Parse` accepts (host `github.com`) and a token present,
the source assigns the DEPENDENCY path — not the remote URL's path — as
the owner/repo URI (main.go line 211, `uri = path`), so the three-segment
module path fails the OWNER/REPO split and the run dies fatally before
the upgrade, instead of deriving the owner and repository from the remote
URL as the spec describes.  The SSH branch, by contrast, works: the same
run with the SSH remote of `wOk` extracts owner `alice` and repository
`widget` with the `.git` suffix stripped. -/
theorem claim_C8 :
    (run cfgOk wHttps).exitCode = 1 ∧
    (run cfgOk wHttps).trace = [Event.goModTidy, Event.gitStatus,
      Event.goModEditJson, Event.gitRemoteGetUrl] ∧
    parseHostUri cfgOk wHttps
      (trimSpaceStr "https://github.com/alice/widget.git") =
      Step.cont ("github.com", cfgOk.path) ∧
    (remoteStage cfgOk wOk).2 = Step.cont (true, "alice", "widget") := by
  decide

/-- Claim C9: after any valid flag prefix, the first non-flag token
becomes the dependency path and every following token becomes the
post-update command; an unknown `-`-token in flag position, or `-version`
without a value, makes the parser fail with an error and the process
exit 1 with no external effect. -/
theorem claim_C9 :
    (∀ pre p post, flagSeqOk pre = true → p ≠ "" →
      hasPrefixStr p "-" = false →
      ∃ cfg, parseArgs (pre ++ p :: post) = .ok cfg ∧
        cfg.path = p ∧ cfg.postCmdRaw = post) ∧
    (∀ pre x rest w, flagSeqOk pre = true → hasPrefixStr x "-" = true →
      x ≠ "-nopush" → x ≠ "-nopr" → x ≠ "-version" →
      (∃ e, parseArgs (pre ++ x :: rest) = .error e) ∧
      mainRun (pre ++ x :: rest) w = ⟨[], 1⟩) ∧
    (∀ pre w, flagSeqOk pre = true →
      (∃ e, parseArgs (pre ++ ["-version"]) = .error e) ∧
      mainRun (pre ++ ["-version"]) w = ⟨[], 1⟩) := by
  refine ⟨?_, ?_, ?_⟩
  · intro pre p post hpre hp hpfx
    obtain ⟨v', pu', pr', hh⟩ :=
      parseArgsLoop_flagSeq pre (p :: post) "" [] true true hpre
    have hstep : parseArgsLoop (p :: post) "" v' [] pu' pr' =
        .ok ⟨p, v', pu', pr', post⟩ := by
      rw [parseArgsLoop.eq_def]
      dsimp only
      rw [if_neg (by simp [hpfx]), if_pos rfl,
        parseArgsLoop_after_path post p v' [] pu' pr' hp]
      simp
    refine ⟨⟨p, v', pu', pr', post⟩, ?_, rfl, rfl⟩
    unfold parseArgs
    rw [if_neg (by simp), hh, hstep]
  · intro pre x rest w hpre hpfx hn1 hn2 hn3
    obtain ⟨v', pu', pr', hh⟩ :=
      parseArgsLoop_flagSeq pre (x :: rest) "" [] true true hpre
    have hstep : parseArgsLoop (x :: rest) "" v' [] pu' pr' =
        .error "fatal: invalid argument" := by
      rw [parseArgsLoop.eq_def]
      dsimp only
      rw [if_pos ⟨rfl, hpfx⟩]
      simp [hn1, hn2, hn3]
    have herr : parseArgs (pre ++ x :: rest) =
        .error "fatal: invalid argument" := by
      unfold parseArgs
      rw [if_neg (by simp), hh, hstep]
    refine ⟨⟨_, herr⟩, ?_⟩
    unfold mainRun
    rw [herr]
  · intro pre w hpre
    obtain ⟨v', pu', pr', hh⟩ :=
      parseArgsLoop_flagSeq pre ["-version"] "" [] true true hpre
    have hstep : parseArgsLoop ["-version"] "" v' [] pu' pr' =
        .error "fatal: not enough arguments" := by
      rw [parseArgsLoop.eq_def]
      simp [hasPrefixStr, dropPrefixChars]
    have herr : parseArgs (pre ++ ["-version"]) =
        .error "fatal: not enough arguments" := by
      unfold parseArgs
      rw [if_neg (by simp), hh, hstep]
    refine ⟨⟨_, herr⟩, ?_⟩
    unfold mainRun
    rw [herr]

/-- Witness for C9 at concrete argument lists. -/
theorem claim_C9_witness :
    (∃ cfg, parseArgs (["-nopush", "-version", "v1.9.0"] ++
        "github.com/foo/bar" :: ["echo", "done"]) = .ok cfg ∧
      cfg.path = "github.com/foo/bar" ∧ cfg.postCmdRaw = ["echo", "done"]) ∧
    mainRun (["-nopush"] ++ "-bogus" :: ["x"]) wOk = ⟨[], 1⟩ ∧
    mainRun (["-nopr"] ++ ["-version"]) wOk = ⟨[], 1⟩ :=
  ⟨claim_C9.1 ["-nopush", "-version", "v1.9.0"] "github.com/foo/bar"
      ["echo", "done"] (by decide) (by decide) (by decide),
    (claim_C9.2.1 ["-nopush"] "-bogus" ["x"] wOk (by decide) (by decide)
      (by decide) (by decide) (by decide)).2,
    (claim_C9.2.2 ["-nopr"] wOk (by decide)).2⟩

/-- Claim C10: in the later revision, a resolved version that is not
strict semver leaves the `Version` template field empty, so the commit
title is `modules: upgrade <project> to ` with no version text; the early
revision always places the raw version string in the field and the
title. -/
theorem claim_C10 (path target v : String) (sv : Bool)
    (hv : vreMatch v = false)
    (hpr : '\n' ∉ ((splitStr path "/").getLastD "").data) :
    (buildData path target v sv).Version = "" ∧
    commitTitle (buildData path target v sv) =
      "modules: upgrade " ++
        htmlEscape ((splitStr path "/").getLastD "") ++ " to " ∧
    (∀ nvE : String, '\n' ∉ nvE.data →
      (buildDataEarly path target nvE sv).Version = nvE ∧
      commitTitleEarly (buildDataEarly path target nvE sv) =
        "modules: upgrade " ++
          htmlEscape ((splitStr path "/").getLastD "") ++ " to " ++
          htmlEscape nvE) := by
  have hE0 : htmlEscape "" = "" := by decide
  have hml : '\n' ∉ ("modules: upgrade " : String).data := by decide
  have hto : '\n' ∉ (" to " : String).data := by decide
  have hVer : (buildData path target v sv).Version = "" := by
    simp [buildData, hv]
  refine ⟨hVer, ?_, ?_⟩
  · set d := buildData path target v sv with hd
    have hproj : d.Project = (splitStr path "/").getLastD "" := by
      simp [hd, buildData]
    have hT : '\n' ∉ ("modules: upgrade " ++ htmlEscape d.Project ++
        " to ").data := by
      simp only [String.data_append, List.mem_append]
      rintro (⟨h1 | h1⟩ | h1)
      · exact hml h1
      · exact htmlEscape_no_newline _ (hproj ▸ hpr) h1
      · exact hto h1
    have hsplit : renderCommitMessage d =
        ("modules: upgrade " ++ htmlEscape d.Project ++ " to ") ++ "\n\n" ++
        ("This updates:\n  " ++ htmlEscape d.Path ++ "\n\nTo version " ++
          htmlEscape d.Version ++ ".\n\nExecuted via:\n\n  go get " ++
          htmlEscape d.Target ++ "\n  go mod tidy\n" ++
          (if d.Vendor then "  go mod vendor" else "") ++
          "\n\nFor details on changes, see the project's release page.\n" ++
          (if d.URL = "" then "" else "  " ++ htmlEscape d.URL) ++
          "\n\nThis commit message was auto-generated.") := by
      unfold renderCommitMessage
      rw [show d.Version = "" from hVer, hE0]
      rw [show ("\n\nThis updates:\n  " : String) =
        "\n\n" ++ "This updates:\n  " from by decide]
      simp only [String.append_assoc, String.empty_append, String.append_empty]
    unfold commitTitle
    rw [hsplit, commitTitle_of_split _ _ hT, hproj]
  · intro nvE hnv
    set d := buildDataEarly path target nvE sv with hd
    have hproj : d.Project = (splitStr path "/").getLastD "" := by
      simp [hd, buildDataEarly]
    have hVerE : d.Version = nvE := by simp [hd, buildDataEarly]
    refine ⟨hVerE, ?_⟩
    have hT : '\n' ∉ ("modules: upgrade " ++ htmlEscape d.Project ++
        " to " ++ htmlEscape d.Version).data := by
      simp only [String.data_append, List.mem_append]
      rintro (⟨⟨h1 | h1⟩ | h1⟩ | h1)
      · exact hml h1
      · exact htmlEscape_no_newline _ (hproj ▸ hpr) h1
      · exact hto h1
      · exact htmlEscape_no_newline _ (hVerE ▸ hnv) h1
    have hsplit : renderCommitMessageEarly d =
        ("modules: upgrade " ++ htmlEscape d.Project ++ " to " ++
          htmlEscape d.Version) ++ "\n\n" ++
        ("This updates\n  " ++ htmlEscape d.Path ++ "\n\nTo version " ++
          htmlEscape d.Version ++ ".\n\nExecuted via:\n\n  go get " ++
          htmlEscape d.Target ++ "\n  go mod tidy\n" ++
          (if d.Vendor then "  go mod vendor" else "") ++
          "\n\nFor details on changes, see the project's release page.\n" ++
          (if d.URL = "" then "" else "  " ++ htmlEscape d.URL) ++
          "\n\nThis commit message was auto-generated.") := by
      unfold renderCommitMessageEarly
      rw [show ("\n\nThis updates\n  " : String) =
        "\n\n" ++ "This updates\n  " from by decide]
      simp only [String.append_assoc, String.empty_append, String.append_empty]
    unfold commitTitleEarly
    rw [hsplit, commitTitle_of_split _ _ hT, hproj, hVerE]

/-- Witness for C10 at a concrete pseudo-version. -/
theorem claim_C10_witness :
    (buildData "github.com/foo/bar" "github.com/foo/bar"
      "v0.0.0-20230101000000-abcdef123456" true).Version = "" ∧
    commitTitle (buildData "github.com/foo/bar" "github.com/foo/bar"
      "v0.0.0-20230101000000-abcdef123456" true) =
      "modules: upgrade " ++
        htmlEscape ((splitStr "github.com/foo/bar" "/").getLastD "") ++
        " to " ∧
    (buildDataEarly "github.com/foo/bar" "github.com/foo/bar"
      "v0.0.0-20230101000000-abcdef123456" true).Version =
      "v0.0.0-20230101000000-abcdef123456" ∧
    commitTitleEarly (buildDataEarly "github.com/foo/bar"
      "github.com/foo/bar" "v0.0.0-20230101000000-abcdef123456" true) =
      "modules: upgrade " ++
        htmlEscape ((splitStr "github.com/foo/bar" "/").getLastD "") ++
        " to " ++ htmlEscape "v0.0.0-20230101000000-abcdef123456" := by
  have h := claim_C10 "github.com/foo/bar" "github.com/foo/bar"
    "v0.0.0-20230101000000-abcdef123456" true (by decide) (by decide)
  exact ⟨h.1, h.2.1,
    (h.2.2 "v0.0.0-20230101000000-abcdef123456" (by decide)).1,
    (h.2.2 "v0.0.0-20230101000000-abcdef123456" (by decide)).2⟩

end Depbump
